import Mathlib

/-!
# Goldfish memory system — formal model and verification

A shallow embedding of the core of the `goldfish` agentic-memory library
(Rust), covering:

* the entity model (`Memory`, `Association`, `MemoryType`, `RelationType`,
  `MemoryError`) from `src/types.rs` and `src/error.rs`;
* working memory (`WorkingMemory` and its operations) from `src/cortex.rs`;
* the hybrid retrieval pipeline (`hybrid_rank`) from `src/hybrid_retrieval.rs`;
* recall post-processing (`MemoryCortex::recall` over
  `MemorySearch::search_fulltext`) from `src/cortex.rs` / `src/search.rs`;
* maintenance (`run_maintenance`) from `src/maintenance.rs`;
* the vector backends (`FileVectorBackend`, `LanceDbVectorBackend`) from
  `src/vector_backend.rs` / `src/vector_search.rs`;
* the deterministic reference embedding (`generate_embedding`,
  `cosine_similarity`) from `src/vector_search.rs`.

Modelling conventions:

* `f32`/`f64` arithmetic is modelled exactly over `ℚ` (and over `ℝ` where the
  source takes square roots); overflow/rounding of IEEE floats is out of scope.
* `chrono::DateTime<Utc>` instants are modelled as `Int` values counting
  seconds; `Duration::num_hours` is truncating division by 3600 and
  `Duration::num_days` truncating division by 86400, matching chrono's
  truncation toward zero (`Int.tdiv`).
* Rust `HashMap`s are modelled as association lists in insertion order.  Where
  the source *iterates* a `HashMap` (an order the Rust runtime randomizes per
  map), the iteration order is an explicit parameter of the model.
* Rust's stable `sort_by` with a descending key comparator is modelled by the
  stable insertion sort `stableSortBy (keyLT k)` below.
-/

namespace Goldfish

open List (Perm Sublist)
open scoped List

/-! ## Generic list utilities

`updateFirst` models Rust's `iter_mut().find(..)` followed by a mutation of the
found element.  `insortBy`/`stableSortBy` model `Vec::sort_by` with comparator
`lt` (`lt y x = true` meaning `y` must be strictly before `x`): a stable sort
places an element after every earlier element that strictly precedes it and
before equivalent ones. -/

def updateFirst (p : α → Bool) (f : α → α) : List α → List α
  | [] => []
  | x :: t => if p x then f x :: t else x :: updateFirst p f t

def insortBy (lt : α → α → Bool) (x : α) : List α → List α
  | [] => [x]
  | y :: t => if lt y x then y :: insortBy lt x t else x :: y :: t

def stableSortBy (lt : α → α → Bool) : List α → List α
  | [] => []
  | x :: t => insortBy lt x (stableSortBy lt t)

/-- Descending comparator by key: `a` strictly precedes `b` iff `k a > k b`. -/
def keyLT [LinearOrder κ] (k : α → κ) (a b : α) : Bool :=
  decide (k b < k a)

/-! Association lists model Rust `HashMap`s in insertion order: `insertA`
overwrites the value of an existing key in place (HashMap::insert semantics;
the list position only matters where the source iterates the map, which the
model exposes as explicit orders). -/

def insertA [BEq κ] (m : List (κ × β)) (key : κ) (v : β) : List (κ × β) :=
  match m with
  | [] => [(key, v)]
  | (k0, v0) :: t => if k0 == key then (k0, v) :: t else (k0, v0) :: insertA t key v

def lookupA [BEq κ] (m : List (κ × β)) (key : κ) : Option β :=
  match m with
  | [] => none
  | (k0, v0) :: t => if k0 == key then some v0 else lookupA t key

/-! ## Entity model (`src/types.rs`, `src/error.rs`)

Timestamps (`chrono::DateTime<Utc>`) are `Int` seconds.  `f32` scalars are
`ℚ`.  Fields of `Memory` that no verified operation reads (`priority`,
`emotional_valence`, `tags`, `source`, `session_id`, `metadata`,
`confidence`) are omitted from the model. -/

inductive MemoryType where
  | Fact | Preference | Decision | Identity | Event
  | Observation | Goal | Todo | Summary
  deriving DecidableEq, Repr

/-- `MemoryType::ALL` from `src/types.rs`. -/
def MemoryType.ALL : List MemoryType :=
  [.Fact, .Preference, .Decision, .Identity, .Event,
   .Observation, .Goal, .Todo, .Summary]

/-- `MemoryType::can_decay`: everything but `Identity` decays. -/
def MemoryType.can_decay : MemoryType → Bool
  | .Identity => false
  | _ => true

inductive RelationType where
  | RelatedTo | Updates | Contradicts | CausedBy | ResultOf | PartOf
  deriving DecidableEq, Repr

/-- `RelationType::score_multiplier` (`src/types.rs`): Updates 1.5,
CausedBy/ResultOf 1.3, RelatedTo 1.0, Contradicts 0.5, PartOf 0.8. -/
def RelationType.score_multiplier : RelationType → ℚ
  | .Updates => 3/2
  | .CausedBy => 13/10
  | .ResultOf => 13/10
  | .RelatedTo => 1
  | .Contradicts => 1/2
  | .PartOf => 4/5

structure Memory where
  id : String
  content : String
  memory_type : MemoryType
  importance : ℚ
  created_at : Int
  updated_at : Int
  last_accessed_at : Int
  access_count : Int
  forgotten : Bool
  deriving DecidableEq, Repr

structure Association where
  id : String
  source_id : String
  target_id : String
  relation_type : RelationType
  weight : ℚ
  created_at : Int
  deriving DecidableEq, Repr

structure MemorySearchResult where
  memory : Memory
  score : ℚ
  rank : Nat
  deriving DecidableEq, Repr

/-- `MemoryError` (`src/error.rs`); structured payloads are collapsed to their
display strings. -/
inductive MemoryError where
  | Database (msg : String)
  | VectorDb (msg : String)
  | EmbeddingFailed (msg : String)
  | NotFound (msg : String)
  | InvalidOperation (msg : String)
  | Configuration (msg : String)
  | Validation (msg : String)
  | Storage (msg : String)
  | SearchIndex (msg : String)
  | Serialization (msg : String)
  | Io (msg : String)
  | Other (msg : String)
  deriving DecidableEq, Repr

/-! ## Working memory (`src/cortex.rs`, lines 26–213)

Every operation that reads `Utc::now()` in the source takes `now : Int`
explicitly.  `Duration` TTLs are `Int` seconds. -/

structure WorkingMemoryItem where
  memory_id : String
  content : String
  memory_type : MemoryType
  accessed_at : Int
  attention_score : ℚ
  expires_at : Option Int
  pinned : Bool
  deriving DecidableEq, Repr

structure WorkingMemory where
  items : List WorkingMemoryItem
  max_items : Nat
  deriving DecidableEq, Repr

namespace WorkingMemory

/-- `WorkingMemory::new`. -/
def new (max_items : Nat) : WorkingMemory :=
  { items := [], max_items := max_items }

/-- Whether a non-pinned item with this expiry is live at `now`
(the source keeps an item when `expires_at` is unset or `> now`). -/
def liveAt (now : Int) (exp : Option Int) : Bool :=
  match exp with
  | some e => now < e
  | none => true

/-- Sort key of `cleanup`/`get_context`: pinned first, then attention
descending (`b.pinned.cmp(&a.pinned).then(b.attention_score.partial_cmp(&a.attention_score).unwrap())`). -/
def sortKey (i : WorkingMemoryItem) : Bool ×ₗ ℚ :=
  toLex (i.pinned, i.attention_score)

/-- Number of pinned items (`items.iter().filter(|i| i.pinned).count()`). -/
def pinnedCount (l : List WorkingMemoryItem) : Nat :=
  (l.filter (·.pinned)).length

/-- `WorkingMemory::cleanup`: drop expired non-pinned items, sort pinned-first
then by attention, and if over `max_items` trim to
`max(max_items, pinned_count)`. -/
def cleanup (wm : WorkingMemory) (now : Int) : WorkingMemory :=
  let items1 := wm.items.filter (fun i => i.pinned || liveAt now i.expires_at)
  let items2 := stableSortBy (keyLT sortKey) items1
  let items3 :=
    if wm.max_items < items2.length then
      items2.take (max wm.max_items (pinnedCount items2))
    else items2
  { wm with items := items3 }

/-- `WorkingMemory::remember`: refresh an existing item (attention `+0.1`
capped at 1, refreshed `accessed_at`, snapshot update, TTL overwritten only
when a TTL is supplied) or push a fresh unpinned item with attention 0.5;
then `cleanup`. -/
def remember (wm : WorkingMemory) (memory : Memory) (ttl : Option Int)
    (now : Int) : WorkingMemory :=
  let expires_at := ttl.map (fun d => now + d)
  let items :=
    if wm.items.any (fun i => i.memory_id == memory.id) then
      updateFirst (fun i => i.memory_id == memory.id)
        (fun i =>
          { i with
            accessed_at := now
            attention_score := min (i.attention_score + 1/10) 1
            content := memory.content
            expires_at :=
              match expires_at with
              | some e => some e
              | none => i.expires_at })
        wm.items
    else
      wm.items ++
        [{ memory_id := memory.id
           content := memory.content
           memory_type := memory.memory_type
           accessed_at := now
           attention_score := 1/2
           expires_at := expires_at
           pinned := false }]
  cleanup { wm with items := items } now

/-- `WorkingMemory::focus`: boost attention of the item to 1.0; returns
whether the id was found. -/
def focus (wm : WorkingMemory) (memory_id : String) (now : Int) :
    WorkingMemory × Bool :=
  if wm.items.any (fun i => i.memory_id == memory_id) then
    ({ wm with
        items := updateFirst (fun i => i.memory_id == memory_id)
          (fun i => { i with attention_score := 1, accessed_at := now })
          wm.items },
      true)
  else (wm, false)

/-- `WorkingMemory::pin`. -/
def pin (wm : WorkingMemory) (memory_id : String) : WorkingMemory × Bool :=
  if wm.items.any (fun i => i.memory_id == memory_id) then
    ({ wm with
        items := updateFirst (fun i => i.memory_id == memory_id)
          (fun i => { i with pinned := true }) wm.items },
      true)
  else (wm, false)

/-- `WorkingMemory::unpin`. -/
def unpin (wm : WorkingMemory) (memory_id : String) : WorkingMemory × Bool :=
  if wm.items.any (fun i => i.memory_id == memory_id) then
    ({ wm with
        items := updateFirst (fun i => i.memory_id == memory_id)
          (fun i => { i with pinned := false }) wm.items },
      true)
  else (wm, false)

/-- `WorkingMemory::get_context`: live (non-expired) items, pinned first, then
by attention descending.  The expiry filter here applies to pinned items too
(`exp > now` with no pinned exemption). -/
def get_context (wm : WorkingMemory) (now : Int) : List WorkingMemoryItem :=
  let live := wm.items.filter (fun i => liveAt now i.expires_at)
  stableSortBy (keyLT sortKey) live

/-- `WorkingMemory::clear`. -/
def clear (wm : WorkingMemory) : WorkingMemory :=
  { wm with items := [] }

/-- `WorkingMemory::decay`: drop expired non-pinned items, multiply unpinned
attention by 0.95, drop unpinned items with attention ≤ 0.1. -/
def decay (wm : WorkingMemory) (now : Int) : WorkingMemory :=
  let items1 := wm.items.filter (fun i => i.pinned || liveAt now i.expires_at)
  let items2 := items1.map (fun i =>
    if i.pinned then i
    else { i with attention_score := i.attention_score * (19/20) })
  let items3 := items2.filter (fun i => i.pinned || 1/10 < i.attention_score)
  { wm with items := items3 }

end WorkingMemory

/-- A single working-memory operation, with the data the corresponding
source method receives (`now` standing for the `Utc::now()` the method
reads). -/
inductive WMOp where
  | rememberOp (memory : Memory) (ttl : Option Int) (now : Int)
  | focusOp (id : String) (now : Int)
  | pinOp (id : String)
  | unpinOp (id : String)
  | decayOp (now : Int)
  | clearOp

/-- State reached after one operation (the `bool` results of
focus/pin/unpin are dropped). -/
def WMOp.apply (op : WMOp) (wm : WorkingMemory) : WorkingMemory :=
  match op with
  | .rememberOp m ttl now => wm.remember m ttl now
  | .focusOp id now => (wm.focus id now).1
  | .pinOp id => (wm.pin id).1
  | .unpinOp id => (wm.unpin id).1
  | .decayOp now => wm.decay now
  | .clearOp => wm.clear

/-- Working-memory states reachable from a fresh `WorkingMemory::new` by any
sequence of operations. -/
inductive WMReachable : WorkingMemory → Prop where
  | init (n : Nat) : WMReachable (WorkingMemory.new n)
  | step {wm : WorkingMemory} (h : WMReachable wm) (op : WMOp) :
      WMReachable (op.apply wm)

/-! ## Graph store (`src/store.rs`) and maintenance (`src/maintenance.rs`)

The `memories` table is a `List Memory` in row order.  SQL `ORDER BY` clauses
are modelled by the stable sort over the table order (descending by the
lexicographic sort key shown at each call). -/

/-- Rust `f32::clamp`. -/
def clampQ (x lo hi : ℚ) : ℚ :=
  min (max x lo) hi

namespace MemoryStore

/-- `MemoryStore::get_by_type`: non-forgotten rows of the type, ordered by
importance descending then `updated_at` descending, limited. -/
def get_by_type (store : List Memory) (t : MemoryType) (limit : Nat) :
    List Memory :=
  (stableSortBy (keyLT fun m => toLex (m.importance, m.updated_at))
      (store.filter (fun m => m.memory_type == t && !m.forgotten))).take limit

/-- `MemoryStore::update`: overwrite every column except `id` and
`created_at` on the row with the given id. -/
def update (store : List Memory) (m : Memory) : List Memory :=
  store.map (fun r =>
    if r.id == m.id then { m with id := r.id, created_at := r.created_at }
    else r)

/-- `MemoryStore::forget`: set `forgotten = 1` (and `updated_at = now`) on the
row with the given id when it is not already forgotten; reports whether a row
was affected. -/
def forget (store : List Memory) (id : String) (now : Int) :
    List Memory × Bool :=
  (store.map (fun r =>
      if r.id == id && !r.forgotten then
        { r with forgotten := true, updated_at := now }
      else r),
    store.any (fun r => r.id == id && !r.forgotten))

/-- `MemoryStore::get_pruning_candidates`: non-forgotten, low-importance,
non-Identity rows older than the cutoff, importance ascending then
`created_at` ascending. -/
def get_pruning_candidates (store : List Memory) (importance_threshold : ℚ)
    (min_age_days : Int) (now : Int) : List Memory :=
  let cutoff := now - min_age_days * 86400
  stableSortBy (keyLT fun m => toLex (-m.importance, -m.created_at))
    (store.filter (fun m =>
      m.importance < importance_threshold &&
        m.memory_type != MemoryType.Identity &&
        m.created_at < cutoff && !m.forgotten))

end MemoryStore

/-- `MaintenanceConfig` (`src/maintenance.rs`). -/
structure MaintenanceConfig where
  prune_threshold : ℚ
  decay_rate : ℚ
  min_age_days : Int
  merge_similarity_threshold : ℚ
  enable_decay : Bool
  enable_pruning : Bool
  enable_merging : Bool
  enable_consolidation : Bool
  consolidation_age_days : Int
  consolidation_threshold : ℚ
  deriving DecidableEq, Repr

/-- `MaintenanceConfig::default`. -/
def MaintenanceConfig.default : MaintenanceConfig :=
  { prune_threshold := 1/10
    decay_rate := 1/20
    min_age_days := 30
    merge_similarity_threshold := 19/20
    enable_decay := true
    enable_pruning := true
    enable_merging := false
    enable_consolidation := false
    consolidation_age_days := 30
    consolidation_threshold := 3/10 }

/-- `MaintenanceReport` (`Default` leaves every counter at 0). -/
structure MaintenanceReport where
  decayed : Nat
  pruned : Nat
  merged : Nat
  consolidated : Nat
  checked : Nat
  deriving DecidableEq, Repr

/-- `apply_decay` (`src/maintenance.rs`, lines 90–126): for each decayable
type, snapshot its rows, recompute importance from age and access recency,
and persist only significant changes. -/
def apply_decay (store : List Memory) (decay_rate : ℚ) (now : Int) :
    List Memory × Nat :=
  (MemoryType.ALL.filter (·.can_decay)).foldl
    (fun acc t =>
      let snapshot := MemoryStore.get_by_type acc.1 t 1000
      snapshot.foldl
        (fun acc2 mem =>
          let days_old := (now - mem.updated_at).tdiv 86400
          let days_since_access := (now - mem.last_accessed_at).tdiv 86400
          let age_decay : ℚ := 1 - min ((days_old : ℚ) * decay_rate) (1/2)
          let access_boost : ℚ :=
            if days_since_access < 7 then 11/10
            else if 30 < days_since_access then 9/10
            else 1
          let new_importance := mem.importance * age_decay * access_boost
          if 1/100 < |new_importance - mem.importance| then
            (MemoryStore.update acc2.1
                { mem with
                  importance := clampQ new_importance 0 1
                  updated_at := now },
              acc2.2 + 1)
          else acc2)
        acc)
    (store, 0)

/-- `prune_memories`: soft-delete every pruning candidate. -/
def prune_memories (store : List Memory) (config : MaintenanceConfig)
    (now : Int) : List Memory × Nat :=
  let candidates :=
    MemoryStore.get_pruning_candidates store config.prune_threshold
      config.min_age_days now
  candidates.foldl
    (fun acc mem =>
      let r := MemoryStore.forget acc.1 mem.id now
      (r.1, if r.2 then acc.2 + 1 else acc.2))
    (store, 0)

/-- `merge_similar_memories`: a placeholder in the source; always 0. -/
def merge_similar_memories (store : List Memory) (_threshold : ℚ) :
    List Memory × Nat :=
  (store, 0)

/-- `run_maintenance` (`src/maintenance.rs`, lines 67–87): runs decay,
pruning and merging according to the flags.  Note that the body contains no
consolidation step: `enable_consolidation`, `consolidation_age_days` and
`consolidation_threshold` are never read, and `report.consolidated` keeps its
`Default` value 0. -/
def run_maintenance (store : List Memory) (config : MaintenanceConfig)
    (now : Int) : List Memory × MaintenanceReport :=
  let s0 := store
  let (s1, decayed) :=
    if config.enable_decay then apply_decay s0 config.decay_rate now
    else (s0, 0)
  let (s2, pruned) :=
    if config.enable_pruning then prune_memories s1 config now else (s1, 0)
  let (s3, merged) :=
    if config.enable_merging then
      merge_similar_memories s2 config.merge_similarity_threshold
    else (s2, 0)
  (s3,
    { decayed := decayed, pruned := pruned, merged := merged,
      consolidated := 0, checked := 0 })

/-- `VectorSearchHit` (`src/vector_backend.rs`): id plus higher-is-better
score. -/
structure VectorSearchHit where
  id : String
  score : ℚ
  deriving DecidableEq, Repr

/-! ## Hybrid retrieval (`src/hybrid_retrieval.rs`)

`hybrid_rank`'s collaborators are parameters, as in the source: the BM25
result list, the optional vector backend and embedder (the embedder is
represented by the result of `embed([query])`, the backend by its `search`
function), and the `load_memory` / `get_neighbors` callbacks (`Except`-valued:
any call may fail).  The two places where the source iterates a `HashMap`
whose order the Rust runtime randomizes are (a) the seed construction, which
walks `bm25_map` and then `vector_map` — their orders are the explicit
`bm25Iter` / `vecIter` parameters — and (b) the final per-candidate loop,
whose order is the explicit `partsIter` parameter. -/

structure HybridSearchConfig where
  max_results : Nat
  bm25_limit : Nat
  vector_limit : Nat
  neighbor_depth : Nat
  weight_bm25 : ℚ
  weight_vector : ℚ
  weight_importance : ℚ
  weight_recency : ℚ
  weight_graph : ℚ
  deriving DecidableEq, Repr

/-- `HybridSearchConfig::default`. -/
def HybridSearchConfig.default : HybridSearchConfig :=
  { max_results := 10
    bm25_limit := 25
    vector_limit := 25
    neighbor_depth := 1
    weight_bm25 := 7/20
    weight_vector := 7/20
    weight_importance := 1/10
    weight_recency := 1/5
    weight_graph := 3/20 }

structure RetrievalExplanation where
  bm25 : Option ℚ
  vector : Option ℚ
  importance : ℚ
  recency : ℚ
  graph : ℚ
  notes : List String
  deriving DecidableEq, Repr

structure ExplainedSearchResult where
  memory : Memory
  score : ℚ
  rank : Nat
  explanation : RetrievalExplanation
  deriving DecidableEq, Repr

structure ScoreParts where
  bm25_raw : Option ℚ
  vector_raw : Option ℚ
  graph_raw : ℚ
  deriving DecidableEq, Repr

/-- `ScoreParts::default()` (from `#[derive(Default)]`). -/
def ScoreParts.zero : ScoreParts :=
  { bm25_raw := none, vector_raw := none, graph_raw := 0 }

/-- `recency_factor`: `1 / (1 + hours_ago * 0.01)` with
`hours_ago = (now - last_accessed_at).num_hours().max(0)`. -/
def recency_factor (now last_accessed_at : Int) : ℚ :=
  let hours_ago : ℚ := (max ((now - last_accessed_at).tdiv 3600) 0 : Int)
  1 / (1 + hours_ago * (1/100))

/-- `f32::EPSILON`. -/
def EPSILON : ℚ := 1 / 2 ^ 23

/-- `normalize_scores`: min-max normalization of a score map; empty map stays
empty, a map whose values span less than `f32::EPSILON` maps everything
to 1.0. -/
def normalize_scores : List (String × ℚ) → List (String × ℚ)
  | [] => []
  | v :: vs =>
    let mn := vs.foldl (fun a p => min a p.2) v.2
    let mx := vs.foldl (fun a p => max a p.2) v.2
    if |mx - mn| < EPSILON then (v :: vs).map (fun p => (p.1, 1))
    else (v :: vs).map (fun p => (p.1, (p.2 - mn) / (mx - mn)))

/-- `parts.entry(id).or_default()` followed by a field mutation. -/
def updateParts (m : List (String × ScoreParts)) (id : String)
    (f : ScoreParts → ScoreParts) : List (String × ScoreParts) :=
  insertA m id (f ((lookupA m id).getD ScoreParts.zero))

/-- The optional type filter (`if let Some(mt) = filter_type { if t != mt
{ continue } }`). -/
def typeOk (filter_type : Option MemoryType) (t : MemoryType) : Bool :=
  match filter_type with
  | some mt => t == mt
  | none => true

/-- The BM25 candidate phase (`hybrid_rank`, lines 116–128): take up to
`bm25_limit` results, drop forgotten and type-mismatched memories, record raw
scores in `bm25_map` and `parts`. -/
def bm25Phase (bm25_results : List MemorySearchResult) (bm25_limit : Nat)
    (filter_type : Option MemoryType) :
    List (String × ℚ) × List (String × ScoreParts) :=
  (bm25_results.take bm25_limit).foldl
    (fun st r =>
      if r.memory.forgotten then st
      else if !typeOk filter_type r.memory.memory_type then st
      else
        (insertA st.1 r.memory.id r.score,
          updateParts st.2 r.memory.id
            (fun p => { p with bm25_raw := some r.score })))
    ([], [])

/-- The dense-vector phase (`hybrid_rank`, lines 130–145): when both a
backend and an embedder are configured, embed the query (an embedding error
becomes `VectorDb("Embedding failed: ..")`, an empty embedding batch
`VectorDb("Embedding provider returned no vectors")`), search, and record raw
scores; the `?` operators propagate every failure. -/
def vectorPhase
    (vector_backend :
      Option (List ℚ → Nat → Except MemoryError (List VectorSearchHit)))
    (embedder : Option (Except String (List (List ℚ))))
    (vector_limit : Nat) (parts : List (String × ScoreParts)) :
    Except MemoryError (List (String × ℚ) × List (String × ScoreParts)) :=
  match vector_backend, embedder with
  | some vb, some emb => do
    let embedded ←
      match emb with
      | .ok vs => Except.ok vs
      | .error e => Except.error (.VectorDb ("Embedding failed: " ++ e))
    let vec ←
      match embedded.head? with
      | some v => Except.ok v
      | none =>
        Except.error (.VectorDb "Embedding provider returned no vectors")
    let hits ← vb vec vector_limit
    Except.ok (hits.foldl
      (fun st h =>
        (insertA st.1 h.id h.score,
          updateParts st.2 h.id
            (fun p => { p with vector_raw := some h.score })))
      ([], parts))
  | _, _ => Except.ok ([], parts)

/-- The seed list (`hybrid_rank`, lines 148–158): the BM25 map's entries in
that `HashMap`'s iteration order `bm25Iter`, then the vector map's entries in
its iteration order `vecIter` (both orders the Rust runtime randomizes),
sorted by raw score descending — `sort_by` is stable, so raw-score-tied seeds
keep the iteration order — then top 10. -/
def seedList (bm25_map vector_map : List (String × ℚ))
    (bm25Iter vecIter : List String) : List (String × ℚ) :=
  let pre :=
    bm25Iter.filterMap
      (fun i => (lookupA bm25_map i).map (fun s => (i, s))) ++
    vecIter.filterMap
      (fun i => (lookupA vector_map i).map (fun s => (i, s)))
  (stableSortBy (keyLT fun p => p.2) pre).take 10

/-- The per-seed relation-multiplier map (`hybrid_rank`, lines 161–170): for
each association, the endpoint that is not the seed maps to the relation's
multiplier (later associations overwrite earlier ones). -/
def relMultMap (seed_id : String) (assocs : List Association) :
    List (String × ℚ) :=
  assocs.foldl
    (fun m a =>
      let other := if a.source_id == seed_id then a.target_id else a.source_id
      insertA m other a.relation_type.score_multiplier)
    []

/-- The body of one seed's neighbor loop (`hybrid_rank`, lines 172–185):
skip a forgotten or type-mismatched neighbor; skip an id already in the
`expanded` set (inserted by an earlier seed or earlier in this walk);
otherwise mark the id expanded and add `seed_score × multiplier` to its
`graph_raw`. -/
def expandStep (filter_type : Option MemoryType) (seed_score : ℚ)
    (rel_mult : List (String × ℚ))
    (st : List String × List (String × ScoreParts)) (n : Memory) :
    List String × List (String × ScoreParts) :=
  if n.forgotten then st
  else if !typeOk filter_type n.memory_type then st
  else if st.1.contains n.id then st
  else
    let mult := (lookupA rel_mult n.id).getD 1
    (n.id :: st.1,
      updateParts st.2 n.id
        (fun p => { p with graph_raw := p.graph_raw + seed_score * mult }))

/-- One seed's neighbor walk: `expandStep` folded over the neighbor list. -/
def expandNeighbors (filter_type : Option MemoryType) (seed_score : ℚ)
    (rel_mult : List (String × ℚ)) (neighbors : List Memory)
    (st : List String × List (String × ScoreParts)) :
    List String × List (String × ScoreParts) :=
  neighbors.foldl (expandStep filter_type seed_score rel_mult) st

/-- The graph-expansion loop over the seeds (`hybrid_rank`, lines 157–186);
each `get_neighbors` call may fail and the failure propagates. -/
def expandSeeds
    (get_neighbors :
      String → Nat → Except MemoryError (List Memory × List Association))
    (depth : Nat) (filter_type : Option MemoryType) :
    List (String × ℚ) → List String → List (String × ScoreParts) →
    Except MemoryError (List (String × ScoreParts))
  | [], _, parts => Except.ok parts
  | (seed_id, seed_score) :: rest, expanded, parts => do
    let (neighbors, assocs) ← get_neighbors seed_id depth
    let rel_mult := relMultMap seed_id assocs
    let st := expandNeighbors filter_type seed_score rel_mult neighbors
      (expanded, parts)
    expandSeeds get_neighbors depth filter_type rest st.1 st.2

/-- Scoring of one candidate id (`hybrid_rank`, lines 198–257): load the
memory (a load failure propagates; a missing, forgotten or type-mismatched
memory is skipped), read the normalized signals, and fuse them with the
configured weights. -/
def scoreCandidate (cfg : HybridSearchConfig)
    (filter_type : Option MemoryType) (now : Int)
    (bm25_norm vector_norm graph_norm : List (String × ℚ))
    (load_memory : String → Except MemoryError (Option Memory))
    (id : String) (p : ScoreParts) :
    Except MemoryError (Option ExplainedSearchResult) := do
  let mo ← load_memory id
  match mo with
  | none => Except.ok none
  | some memory =>
    if memory.forgotten then Except.ok none
    else if !typeOk filter_type memory.memory_type then Except.ok none
    else
      let bm25 := p.bm25_raw.bind (fun _ => lookupA bm25_norm id)
      let vector := p.vector_raw.bind (fun _ => lookupA vector_norm id)
      let graph := (lookupA graph_norm id).getD 0
      let importance := clampQ memory.importance 0 1
      let recency := clampQ (recency_factor now memory.last_accessed_at) 0 1
      let notes :=
        (if bm25.isSome then ["Matched BM25 full-text search"] else []) ++
        (if vector.isSome then ["Matched semantic vector search"] else []) ++
        (if 0 < graph then ["Included via graph neighborhood expansion"]
          else [])
      let score := cfg.weight_bm25 * bm25.getD 0 +
        cfg.weight_vector * vector.getD 0 +
        cfg.weight_importance * importance +
        cfg.weight_recency * recency +
        cfg.weight_graph * graph
      Except.ok (some
        { memory := memory
          score := score
          rank := 0
          explanation :=
            { bm25 := bm25, vector := vector, importance := importance
              recency := recency, graph := graph, notes := notes } })

/-- The final per-candidate loop (`for (id, p) in parts`), iterating the
parts map in the order `partsIter` (the `HashMap` iteration order). -/
def scoreLoop (cfg : HybridSearchConfig) (filter_type : Option MemoryType)
    (now : Int) (bm25_norm vector_norm graph_norm : List (String × ℚ))
    (load_memory : String → Except MemoryError (Option Memory))
    (parts : List (String × ScoreParts)) :
    List String → Except MemoryError (List ExplainedSearchResult)
  | [] => Except.ok []
  | id :: rest => do
    let hd ←
      match lookupA parts id with
      | none => Except.ok none
      | some p =>
        scoreCandidate cfg filter_type now bm25_norm vector_norm graph_norm
          load_memory id p
    let tl ← scoreLoop cfg filter_type now bm25_norm vector_norm graph_norm
      load_memory parts rest
    Except.ok (hd.toList ++ tl)

/-- The rank-update loop of `hybrid_rank` (ranks `i + 1` after the final
sort-and-truncate). -/
def assignRanksEx : Nat → List ExplainedSearchResult →
    List ExplainedSearchResult
  | _, [] => []
  | i, r :: t => { r with rank := i + 1 } :: assignRanksEx (i + 1) t

/-- `hybrid_rank` (`src/hybrid_retrieval.rs`, lines 89–268); `bm25Iter`,
`vecIter` and `partsIter` are the iteration orders of the three `HashMap`s
the source walks (seed construction over `bm25_map` and `vector_map`, final
scoring over `parts`), orders the Rust runtime randomizes. -/
def hybrid_rank (bm25_results : List MemorySearchResult)
    (vector_backend :
      Option (List ℚ → Nat → Except MemoryError (List VectorSearchHit)))
    (embedder : Option (Except String (List (List ℚ))))
    (load_memory : String → Except MemoryError (Option Memory))
    (get_neighbors :
      String → Nat → Except MemoryError (List Memory × List Association))
    (cfg : HybridSearchConfig) (filter_type : Option MemoryType)
    (now : Int) (bm25Iter vecIter partsIter : List String) :
    Except MemoryError (List ExplainedSearchResult) := do
  let (bm25_map, parts1) := bm25Phase bm25_results cfg.bm25_limit filter_type
  let (vector_map, parts2) ← vectorPhase vector_backend embedder
    cfg.vector_limit parts1
  let seeds := seedList bm25_map vector_map bm25Iter vecIter
  let parts3 ← expandSeeds get_neighbors cfg.neighbor_depth filter_type
    seeds [] parts2
  let bm25_norm := normalize_scores bm25_map
  let vector_norm := normalize_scores vector_map
  let graph_values := (parts3.filter (fun q => 0 < q.2.graph_raw)).map
    (fun q => (q.1, q.2.graph_raw))
  let graph_norm := normalize_scores graph_values
  let scored ← scoreLoop cfg filter_type now bm25_norm vector_norm graph_norm
    load_memory parts3 partsIter
  let sorted := stableSortBy (keyLT fun r => r.score) scored
  Except.ok (assignRanksEx 0 (sorted.take cfg.max_results))

/-- The `graph_raw` accumulated for an id in a parts map. -/
def graphRawOf (m : List (String × ScoreParts)) (id : String) : ℚ :=
  ((lookupA m id).getD ScoreParts.zero).graph_raw

/-- Whether a neighbor list reaches `id` after the forgotten/type filters. -/
def reachedB (filter_type : Option MemoryType) (ns : List Memory)
    (id : String) : Bool :=
  ns.any (fun n => !n.forgotten && typeOk filter_type n.memory_type &&
    n.id == id)

/-- The single contribution the code gives a reached id: the first seed (in
processed order) whose filtered neighbor list contains it contributes
`seed_score × multiplier`; later seeds contribute nothing. -/
def firstSeedContribution
    (gnp : String → List Memory × List Association)
    (filter_type : Option MemoryType) (seeds : List (String × ℚ))
    (id : String) : ℚ :=
  match seeds.find? (fun s => reachedB filter_type (gnp s.1).1 id) with
  | some s => s.2 * ((lookupA (relMultMap s.1 (gnp s.1).2) id).getD 1)
  | none => 0

/-- What the claim asserts (`Modelled from the spec`, §4.F step 4): the
graph score of an id is the *sum over all seeds* that reach it of
`seed_score × relation_multiplier`.  Written from the spec's words for
comparison with `expandSeeds`, the model of the code. -/
def specGraphScore (gnp : String → List Memory × List Association)
    (filter_type : Option MemoryType) (seeds : List (String × ℚ))
    (id : String) : ℚ :=
  (seeds.map (fun s =>
    if reachedB filter_type (gnp s.1).1 id then
      s.2 * ((lookupA (relMultMap s.1 (gnp s.1).2) id).getD 1)
    else 0)).sum

/-! ## Full-text search and recall (`src/search.rs` lines 341–451,
`src/cortex.rs` lines 686–726)

Tantivy itself is external: its output for the query is the parameter
`scored_ids : List (id × bm25_score)` (already limited by `TopDocs`).  The
store lookup is the pure `load`; a store error and a missing row are
indistinguishable to `search_fulltext` (`if let Ok(Some(memory))`), so `load`
returns `Option Memory`. -/

/-- The rank-update loops (`for (i, r) in results.iter_mut().enumerate()
{ r.rank = i + 1; }`). -/
def assignRanks : Nat → List MemorySearchResult → List MemorySearchResult
  | _, [] => []
  | i, r :: t => { r with rank := i + 1 } :: assignRanks (i + 1) t

/-- `MemorySearch::search_fulltext` (standard mode) after Tantivy returned
`scored_ids`: load each hit, skip forgotten memories, boost the BM25 score by
importance (and by recency when `boost_recent`), then re-sort by the combined
score descending and re-rank. -/
def search_fulltext (scored_ids : List (String × ℚ))
    (load : String → Option Memory) (boost_recent : Bool) (now : Int) :
    List MemorySearchResult :=
  let results := scored_ids.enum.filterMap (fun p =>
    match load p.2.1 with
    | none => none
    | some memory =>
      if memory.forgotten then none
      else
        let score1 := p.2.2 * (1 + memory.importance * (1/2))
        let hours_ago : ℚ := ((now - memory.last_accessed_at).tdiv 3600 : Int)
        let recency := 1 / (1 + hours_ago * (1/100))
        let score :=
          if boost_recent then score1 * (1 + recency * (3/10)) else score1
        some { memory := memory, score := score, rank := p.1 + 1 })
  assignRanks 0 (stableSortBy (keyLT fun r => r.score) results)

/-- `MemoryCortex::recall`: full-text search (with `boost_recent = true` from
`SearchConfig::default` and Tantivy limited to `limit * 3` candidates), then
re-rank each result with `0.65·bm25 + 0.20·importance + 0.15·recency` (a
forgotten result would be zeroed but kept — dead code, as `search_fulltext`
already dropped forgotten memories), re-sort, truncate to `limit`, and assign
1-based ranks. -/
def MemoryCortex.recall (scored_ids : List (String × ℚ)) (load : String → Option Memory)
    (now : Int) (limit : Nat) : List MemorySearchResult :=
  let results := search_fulltext scored_ids load true now
  let rescored := results.map (fun r =>
    if r.memory.forgotten then { r with score := 0 }
    else
      let bm25_score := r.score
      let importance_boost := r.memory.importance * (1/5)
      let hours_ago : ℚ :=
        (max ((now - r.memory.last_accessed_at).tdiv 3600) 0 : Int)
      let recency_boost := (3/20) / (1 + hours_ago * (1/100))
      { r with
        score := bm25_score * (13/20) + importance_boost + recency_boost })
  assignRanks 0 ((stableSortBy (keyLT fun r => r.score) rescored).take limit)

/-! ## Vector backends (`src/vector_backend.rs`, `src/vector_search.rs`)

The file backend's on-disk state (one `.bin` file per id) and the LanceDB
table are association lists from id to stored vector.  File-system and
LanceDB I/O are assumed healthy: the modelled error behaviour is exactly the
dimension checking visible in the source. -/

/-- `cosine_similarity` (`src/vector_search.rs`, lines 108–122): 0 on length
mismatch or empty input, 0 on a zero norm, otherwise the normalized dot
product. -/
noncomputable def cosine_similarity (a b : List ℝ) : ℝ :=
  if a.length ≠ b.length ∨ a = [] then 0
  else
    let dot_product := (List.zipWith (· * ·) a b).sum
    let norm_a := Real.sqrt ((a.map (fun x => x * x)).sum)
    let norm_b := Real.sqrt ((b.map (fun x => x * x)).sum)
    if norm_a = 0 ∨ norm_b = 0 then 0
    else dot_product / (norm_a * norm_b)

/-- `FileVectorBackend::upsert` = `VectorIndex::store`: serialize the vector
and write it under `{id}.bin`.  There is no dimension check: the backend's
`dimension` field is never read here, and any length is accepted. -/
def fileUpsert (_dimension : Nat) (files : List (String × List ℚ))
    (id : String) (vector : List ℚ) :
    Except MemoryError (List (String × List ℚ)) :=
  .ok (insertA files id vector)

/-- `FileVectorBackend::search` = `VectorIndex::search`: score every stored
file by cosine similarity against the query (scoring 0 on a length mismatch,
per `cosine_similarity`), sort descending, truncate.  The directory
enumeration order is the list order of `files`.  No dimension check. -/
noncomputable def fileSearch (_dimension : Nat)
    (files : List (String × List ℚ)) (query : List ℚ) (limit : Nat) :
    Except MemoryError (List (String × ℝ)) :=
  let results := files.map (fun f =>
    (f.1, cosine_similarity (query.map (fun q => (q : ℝ)))
      (f.2.map (fun q => (q : ℝ)))))
  .ok ((stableSortBy (keyLT fun r => r.2) results).take limit)

/-- The message `format!("Vector dimension mismatch: got {}, expected {}")`
of the LanceDB backend. -/
def lancedbDimErrorMsg (got expected : Nat) : String :=
  "Vector dimension mismatch: got " ++ toString got ++ ", expected " ++
    toString expected

/-- `LanceDbVectorBackend::batch_for_upsert` (lines 333–346): reject a vector
whose length differs from the configured dimension with a `VectorDb` error;
otherwise build the record batch (modelled as the `(id, vector)` payload). -/
def batch_for_upsert (dimension : Nat) (id : String) (vector : List ℚ) :
    Except MemoryError (String × List ℚ) :=
  if vector.length ≠ dimension then
    .error (.VectorDb (lancedbDimErrorMsg vector.length dimension))
  else .ok (id, vector)

/-- `LanceDbVectorBackend::upsert`: best-effort delete-by-id, then validate
via `batch_for_upsert` and append. -/
def lancedbUpsert (dimension : Nat) (table : List (String × List ℚ))
    (id : String) (vector : List ℚ) :
    Except MemoryError (List (String × List ℚ)) := do
  let batch ← batch_for_upsert dimension id vector
  .ok ((table.filter (fun r => r.1 != id)) ++ [batch])

/-- `LanceDbVectorBackend::search` (lines 415–422): reject a query vector
whose length differs from the configured dimension with a `VectorDb` error
before any query runs; the ANN query itself is the abstract `rest`. -/
def lancedbSearch (dimension : Nat)
    (rest : List ℚ → Nat → Except MemoryError (List VectorSearchHit))
    (vector : List ℚ) (limit : Nat) :
    Except MemoryError (List VectorSearchHit) :=
  if vector.length ≠ dimension then
    .error (.VectorDb (lancedbDimErrorMsg vector.length dimension))
  else rest vector limit

/-! ## Reference embedding (`src/vector_search.rs`, lines 124–306)

Tokenisation is computable over `ℚ`/`Char`; Unicode character classes
(`is_alphanumeric`, `to_lowercase`) are modelled by their ASCII behaviour and
Rust byte lengths by character counts (the two agree on ASCII text).  The
accumulated feature vector is `ℝ`-valued because the last global feature uses
`ln_1p`. -/

/-- `char_bucket`. -/
def char_bucket (c : Char) : Nat :=
  if 'a' ≤ c ∧ c ≤ 'z' then c.toNat - 97
  else if '0' ≤ c ∧ c ≤ '9' then 26 + (c.toNat - 48)
  else if c = '^' then 36
  else if c = '$' then 37
  else 38

/-- `is_stopword`. -/
def is_stopword (token : String) : Bool :=
  ["a", "an", "the", "and", "or", "but", "to", "of", "for", "with", "in",
    "on", "at", "by", "is", "are", "was", "were", "be", "been", "am", "do",
    "does", "did", "that", "this", "it", "as"].contains token

/-- `str::trim_matches(|c| !c.is_alphanumeric())`. -/
def trimNonAlnum (cs : List Char) : List Char :=
  ((cs.dropWhile (fun c => !c.isAlphanum)).reverse.dropWhile
    (fun c => !c.isAlphanum)).reverse

/-- The light stemming loop of `normalize_token`: drop the first matching
suffix among `ing, ed, es, ly, s` when the token is longer than 4. -/
def stemOnce (t : List Char) : List Char :=
  match ([['i','n','g'], ['e','d'], ['e','s'], ['l','y'], ['s']].find?
      (fun suf => 4 < t.length && suf.isSuffixOf t)) with
  | some suf => t.take (t.length - suf.length)
  | none => t

/-- The canonicalization map of `normalize_token`. -/
def canonicalize (token : String) : String :=
  match token with
  | "like" | "love" | "prefer" | "favorite" => "prefer"
  | "goal" | "aim" | "objective" => "goal"
  | "build" | "create" | "make" => "build"
  | "fix" | "repair" | "resolve" => "fix"
  | "bug" | "issue" | "defect" => "bug"
  | "quick" | "rapid" => "fast"
  | "assistant" | "bot" => "agent"
  | "coding" | "programming" => "code"
  | _ => token

/-- `normalize_token`: trim non-alphanumerics, lowercase, require length ≥ 2,
stem, canonicalize, drop stopwords. -/
def normalize_token (raw : List Char) : Option String :=
  let t1 := (trimNonAlnum raw).map Char.toLower
  if t1.length < 2 then none
  else
    let canonical := canonicalize (String.mk (stemOnce t1))
    if is_stopword canonical then none else some canonical

/-- Rust `str::split(pred)` semantics on the character list (adjacent
separators yield empty pieces, which `normalize_token` then rejects). -/
def splitNonAlnum : List Char → List (List Char)
  | [] => [[]]
  | c :: t =>
    if c.isAlphanum then
      match splitNonAlnum t with
      | [] => [[c]]
      | h :: r => (c :: h) :: r
    else [] :: splitNonAlnum t

/-- The token stream of `generate_embedding`:
`text.split(|c| !c.is_alphanumeric()).filter_map(normalize_token)`. -/
def tokenize (text : String) : List String :=
  (splitNonAlnum text.data).filterMap normalize_token

/-- `token_signature`. -/
def token_signature (token : String) : Nat :=
  let cs := token.data
  let c1 := ((cs.get? 0).map char_bucket).getD 38
  let c2 := ((cs.get? 1).map char_bucket).getD 38
  let last := ((cs.getLast?).map char_bucket).getD 38
  let penultimate := ((cs.reverse.get? 1).map char_bucket).getD 38
  let len := min cs.length 31
  (((c1 * 39 + c2) * 39 + penultimate) * 39 + last) * 32 + len

/-- Sliding windows of width 3 (`slice::windows(3)`). -/
def triWindows : List Nat → List (Nat × Nat × Nat)
  | a :: b :: c :: t => (a, b, c) :: triWindows (b :: c :: t)
  | _ => []

/-- Sliding windows of width 2 (`slice::windows(2)`). -/
def pairWindows : List String → List (String × String)
  | a :: b :: t => (a, b) :: pairWindows (b :: t)
  | _ => []

/-- `embedding[i] += x` (all source indices are in range; the guard keeps the
model total). -/
noncomputable def updAdd (v : Fin 384 → ℝ) (i : Nat) (x : ℝ) : Fin 384 → ℝ :=
  if h : i < 384 then Function.update v ⟨i, h⟩ (v ⟨i, h⟩ + x) else v

/-- `embedding[i] = x`. -/
noncomputable def updSet (v : Fin 384 → ℝ) (i : Nat) (x : ℝ) : Fin 384 → ℝ :=
  if h : i < 384 then Function.update v ⟨i, h⟩ x else v

/-- The pre-normalization feature vector of `generate_embedding` for a text
with at least one token: sub-word trigram accumulation (signed, hash-folded
into dims 0–255), token unigram/bigram signatures (dims 256–351), and global
shape features (dims 352–383; the values at 352–359 are direct assignments,
the per-token `ln_1p` bonus accumulates on dims 360–383 only). -/
noncomputable def rawEmbedding (text : String) : Fin 384 → ℝ :=
  let tokens := tokenize text
  let v1 := tokens.foldl
    (fun v token =>
      let buckets := 36 :: (token.data.map char_bucket ++ [37])
      let v' := (triWindows buckets).foldl
        (fun w tri =>
          let raw_index := (tri.1 * 39 + tri.2.1) * 39 + tri.2.2
          let folded := raw_index % 256
          let sign : ℝ := if (raw_index / 256) % 2 = 0 then 1 else -1
          updAdd w folded sign)
        v
      updAdd v' (256 + token_signature token % 96) 1)
    (fun _ => 0)
  let v2 := (pairWindows tokens).foldl
    (fun v p =>
      updAdd v (256 + (token_signature p.1 * 41 + token_signature p.2) % 96)
        (27/20))
    v1
  let token_count : ℝ := tokens.length
  let avg_len : ℝ := (tokens.map (fun t => (t.length : ℝ))).sum / token_count
  let chars_count : ℝ := max text.data.length 1
  let digit_ratio : ℝ :=
    (text.data.filter (fun c => c.isDigit)).length / chars_count
  let uppercase_ratio : ℝ :=
    (text.data.filter (fun c => 'A' ≤ c ∧ c ≤ 'Z')).length / chars_count
  let v3 := updSet v2 352 (token_count / 64)
  let v4 := updSet v3 353 (avg_len / 16)
  let v5 := updSet v4 354 digit_ratio
  let v6 := updSet v5 355 uppercase_ratio
  let v7 := updSet v6 356 ((text.data.filter (· = '?')).length / 8 : ℝ)
  let v8 := updSet v7 357 ((text.data.filter (· = '!')).length / 8 : ℝ)
  let v9 := updSet v8 358 ((text.data.filter (· = ':')).length / 8 : ℝ)
  let v10 := updSet v9 359 ((text.data.filter (· = '.')).length / 16 : ℝ)
  tokens.enum.foldl
    (fun v p =>
      updAdd v (360 + p.1 % 24) (Real.log (1 + p.2.length) * (1/10)))
    v10

/-- `generate_embedding`: the zero vector when the text has no tokens, else
the L2-normalized feature vector (normalization skipped on a zero norm). -/
noncomputable def generate_embedding (text : String) : Fin 384 → ℝ :=
  if tokenize text = [] then (fun _ => 0)
  else
    let pre := rawEmbedding text
    let norm := Real.sqrt (∑ i, pre i * pre i)
    if 0 < norm then fun i => pre i / norm else pre

/-- The `Vec<f32>` view of an embedding, for feeding `cosine_similarity`. -/
def embToList (v : Fin 384 → ℝ) : List ℝ :=
  (List.finRange 384).map v

/-! ## Concrete fixtures used by witnesses and counterexamples -/

/-- A pinned working-memory item whose TTL expired at t = 5. -/
def pinnedExpiredItem : WorkingMemoryItem :=
  { memory_id := "p"
    content := "pinned snapshot"
    memory_type := .Fact
    accessed_at := 0
    attention_score := 1/2
    expires_at := some 5
    pinned := true }

/-- A working memory holding only `pinnedExpiredItem`. -/
def pinnedExpiredWM : WorkingMemory :=
  { items := [pinnedExpiredItem], max_items := 20 }

/-- An old low-importance Preference memory (created at t = 0, importance
0.2). -/
def oldPref (n : String) : Memory :=
  { id := n
    content := "pref " ++ n
    memory_type := .Preference
    importance := 1/5
    created_at := 0
    updated_at := 0
    last_accessed_at := 0
    access_count := 0
    forgotten := false }

/-- Five old low-importance Preference memories: a consolidation group per
§4.J of the spec. -/
def consolidationStore : List Memory :=
  [oldPref "a", oldPref "b", oldPref "c", oldPref "d", oldPref "e"]

/-- Maintenance configuration with only consolidation enabled
(age 30 days, threshold 0.3). -/
def consolidationCfg : MaintenanceConfig :=
  { MaintenanceConfig.default with
    enable_decay := false
    enable_pruning := false
    enable_merging := false
    enable_consolidation := true }

/-- 100 days, in seconds: the `now` at which the five Preference memories are
100 days old. -/
def consolidationNow : Int := 8640000

/-- Two indistinguishable memories (same content, importance, timestamps)
that tie exactly in recall's combined score; only the ids differ. -/
def tieMemory (n : String) : Memory :=
  { id := n
    content := "tied content"
    memory_type := .Fact
    importance := 0
    created_at := 0
    updated_at := 0
    last_accessed_at := 0
    access_count := 0
    forgotten := false }

/-- The store lookup for the tie scenario. -/
def tieLoad : String → Option Memory := fun id =>
  if id = "a" then some (tieMemory "a")
  else if id = "b" then some (tieMemory "b")
  else none

/-- Two BM25 results with identical raw scores over the tied memories. -/
def tieBm25 : List MemorySearchResult :=
  [{ memory := tieMemory "a", score := 1, rank := 1 },
   { memory := tieMemory "b", score := 1, rank := 2 }]

/-- The tie scenario's `load_memory` callback (never fails). -/
def tieLoadE : String → Except MemoryError (Option Memory) :=
  fun id => Except.ok (tieLoad id)

/-- A graph with no edges, as a `get_neighbors` callback. -/
def tieGNe : String → Nat →
    Except MemoryError (List Memory × List Association) :=
  fun _ _ => Except.ok ([], [])

/-- Two BM25 results with identical raw scores over seeds `x` and `y` for
the seed-order scenario. -/
def seedBm25 : List MemorySearchResult :=
  [{ memory := tieMemory "x", score := 1, rank := 1 },
   { memory := tieMemory "y", score := 1, rank := 2 }]

/-- The seed-order scenario's store: seeds `x`, `y` and neighbors `n1`,
`n2`. -/
def seedLoadE : String → Except MemoryError (Option Memory) := fun id =>
  if id = "x" ∨ id = "y" ∨ id = "n1" ∨ id = "n2" then
    Except.ok (some (tieMemory id))
  else Except.ok none

/-- Neighborhoods for the seed-order scenario: edges `x→n1` `RelatedTo`
(multiplier 1), `x→n2` `Updates` (multiplier 1.5) and `y→n2` `Contradicts`
(multiplier 0.5); which of the BM25-tied seeds `x`, `y` is processed first
decides `n2`'s single first-seed-wins contribution (3/2 or 1/2) and hence
the min-max-normalized graph scores of `n1` and `n2`. -/
def seedGNe : String → Nat →
    Except MemoryError (List Memory × List Association) := fun id _ =>
  if id = "x" then
    Except.ok ([tieMemory "n1", tieMemory "n2"],
      [{ id := "e1", source_id := "x", target_id := "n1",
         relation_type := .RelatedTo, weight := 1/2, created_at := 0 },
       { id := "e2", source_id := "x", target_id := "n2",
         relation_type := .Updates, weight := 1/2, created_at := 0 }])
  else if id = "y" then
    Except.ok ([tieMemory "n2"],
      [{ id := "e3", source_id := "y", target_id := "n2",
         relation_type := .Contradicts, weight := 1/2, created_at := 0 }])
  else Except.ok ([], [])

/-- Neighborhoods for the shared-neighbor scenario: seeds `s1` and `s2` are
both connected to `n` by a `RelatedTo` edge (multiplier 1). -/
def c1Neighbors : String → List Memory × List Association := fun id =>
  if id = "s1" then
    ([tieMemory "n"],
     [{ id := "e1", source_id := "s1", target_id := "n",
        relation_type := .RelatedTo, weight := 1/2, created_at := 0 }])
  else if id = "s2" then
    ([tieMemory "n"],
     [{ id := "e2", source_id := "s2", target_id := "n",
        relation_type := .RelatedTo, weight := 1/2, created_at := 0 }])
  else ([], [])

/-- The parts map the code computes in the shared-neighbor scenario: `n`
carries only the first seed's contribution `2 × 1`. -/
def c1ResultParts : List (String × ScoreParts) :=
  [("n", { bm25_raw := none, vector_raw := none, graph_raw := 2 })]

/-! ## Generic list lemmas -/

theorem length_updateFirst (p : α → Bool) (f : α → α) (l : List α) :
    (updateFirst p f l).length = l.length := by
  induction l with
  | nil => rfl
  | cons x t ih =>
    by_cases h : p x <;> simp [updateFirst, h, ih]

theorem length_insortBy (lt : α → α → Bool) (x : α) (l : List α) :
    (insortBy lt x l).length = l.length + 1 := by
  induction l with
  | nil => rfl
  | cons y t ih =>
    by_cases h : lt y x <;> simp [insortBy, h, ih]

theorem length_stableSortBy (lt : α → α → Bool) (l : List α) :
    (stableSortBy lt l).length = l.length := by
  induction l with
  | nil => rfl
  | cons x t ih => simp [stableSortBy, length_insortBy, ih]

theorem perm_insortBy (lt : α → α → Bool) (x : α) (l : List α) :
    insortBy lt x l ~ x :: l := by
  induction l with
  | nil => rfl
  | cons y t ih =>
    by_cases h : lt y x
    · simp only [insortBy, h, if_true]
      exact (ih.cons y).trans (List.Perm.swap x y t)
    · simp [insortBy, h]

theorem perm_stableSortBy (lt : α → α → Bool) (l : List α) :
    stableSortBy lt l ~ l := by
  induction l with
  | nil => rfl
  | cons x t ih =>
    exact (perm_insortBy lt x (stableSortBy lt t)).trans (ih.cons x)

theorem mem_stableSortBy {lt : α → α → Bool} {a : α} {l : List α} :
    a ∈ stableSortBy lt l ↔ a ∈ l :=
  (perm_stableSortBy lt l).mem_iff

theorem sublist_insortBy (lt : α → α → Bool) (x : α) (l : List α) :
    l <+ insortBy lt x l := by
  induction l with
  | nil => simp
  | cons y t ih =>
    by_cases h : lt y x
    · simpa [insortBy, h] using ih.cons₂ y
    · simp [insortBy, h]

theorem pair_sublist_insortBy {lt : α → α → Bool} {a b : α}
    (hb : b ∈ l) (hba : lt b a = false) :
    [a, b] <+ insortBy lt a l := by
  induction l with
  | nil => cases hb
  | cons y t ih =>
    by_cases h : lt y a
    · have hyb : b ≠ y := by
        intro e; rw [e] at hba; rw [hba] at h; cases h
      have hbt : b ∈ t := by
        rcases List.mem_cons.mp hb with h1 | h1
        · exact absurd h1 hyb
        · exact h1
      simpa [insortBy, h] using (ih hbt).cons y
    · simp only [insortBy, h, if_false]
      exact (List.singleton_sublist.mpr hb).cons₂ a

theorem pair_sublist_stableSortBy {lt : α → α → Bool} {a b : α} {l : List α}
    (hba : lt b a = false) (h : [a, b] <+ l) :
    [a, b] <+ stableSortBy lt l := by
  induction l with
  | nil => cases h
  | cons x t ih =>
    cases h with
    | cons _ h1 =>
      exact (ih h1).trans (sublist_insortBy lt x (stableSortBy lt t))
    | cons₂ _ h1 =>
      have hb : b ∈ stableSortBy lt t :=
        mem_stableSortBy.mpr (List.singleton_sublist.mp h1)
      exact pair_sublist_insortBy hb hba

theorem pairwise_insortBy {lt : α → α → Bool}
    (asym : ∀ a b, lt a b = true → lt b a = false)
    (ntrans : ∀ a b c, lt a b = false → lt b c = false → lt a c = false)
    {x : α} {l : List α} (h : List.Pairwise (fun a b => lt b a = false) l) :
    List.Pairwise (fun a b => lt b a = false) (insortBy lt x l) := by
  induction l with
  | nil => simp [insortBy]
  | cons y t ih =>
    rcases List.pairwise_cons.mp h with ⟨hy, ht⟩
    by_cases hyx : lt y x
    · simp only [insortBy, hyx, if_true]
      refine List.pairwise_cons.mpr ⟨?_, ih ht⟩
      intro z hz
      rcases List.mem_cons.mp ((perm_insortBy lt x t).mem_iff.mp hz) with h1 | h1
      · subst h1; exact asym y z hyx
      · exact hy z h1
    · simp only [insortBy, hyx, if_false]
      refine List.pairwise_cons.mpr ⟨?_, h⟩
      intro z hz
      rcases List.mem_cons.mp hz with h1 | h1
      · subst h1
        exact Bool.eq_false_iff.mpr hyx
      · exact ntrans z y x (hy z h1) (Bool.eq_false_iff.mpr hyx)

theorem pairwise_stableSortBy {lt : α → α → Bool}
    (asym : ∀ a b, lt a b = true → lt b a = false)
    (ntrans : ∀ a b c, lt a b = false → lt b c = false → lt a c = false)
    (l : List α) :
    List.Pairwise (fun a b => lt b a = false) (stableSortBy lt l) := by
  induction l with
  | nil => simp [stableSortBy]
  | cons x t ih => exact pairwise_insortBy asym ntrans ih

theorem keyLT_asym [LinearOrder κ] (k : α → κ) :
    ∀ a b, keyLT k a b = true → keyLT k b a = false := by
  intro a b h
  simp only [keyLT, decide_eq_true_eq] at h
  simp only [keyLT, decide_eq_false_iff_not]
  exact not_lt_of_gt h

theorem keyLT_ntrans [LinearOrder κ] (k : α → κ) :
    ∀ a b c, keyLT k a b = false → keyLT k b c = false → keyLT k a c = false := by
  intro a b c h1 h2
  simp only [keyLT, decide_eq_false_iff_not, not_lt] at h1 h2 ⊢
  exact h1.trans h2

theorem pairwise_key_stableSortBy [LinearOrder κ] (k : α → κ) (l : List α) :
    List.Pairwise (fun a b => k b ≤ k a) (stableSortBy (keyLT k) l) := by
  have h := pairwise_stableSortBy (keyLT_asym k) (keyLT_ntrans k) l
  refine h.imp ?_
  intro a b hab
  simpa [keyLT, not_lt] using hab

theorem pair_sublist_key_stableSortBy [LinearOrder κ] {k : α → κ} {a b : α}
    {l : List α} (hk : k a = k b) (h : [a, b] <+ l) :
    [a, b] <+ stableSortBy (keyLT k) l := by
  refine pair_sublist_stableSortBy ?_ h
  simp [keyLT, hk]

/-! ## Working-memory lemmas -/

namespace WorkingMemory

theorem pinnedCount_le_length (l : List WorkingMemoryItem) :
    pinnedCount l ≤ l.length :=
  List.length_filter_le _ l

theorem pinnedCount_pos_of_mem {l : List WorkingMemoryItem}
    {i : WorkingMemoryItem} (hi : i ∈ l) (hp : i.pinned = true) :
    0 < pinnedCount l := by
  have : i ∈ l.filter (·.pinned) := List.mem_filter.mpr ⟨hi, hp⟩
  exact List.length_pos.mpr (fun e => by rw [e] at this; cases this)

theorem pinnedCount_filter_le (q : WorkingMemoryItem → Bool)
    (l : List WorkingMemoryItem) :
    pinnedCount (l.filter q) ≤ pinnedCount l := by
  unfold pinnedCount
  exact ((List.filter_sublist l).filter _).length_le

theorem pinnedCount_perm {l l' : List WorkingMemoryItem} (h : l ~ l') :
    pinnedCount l = pinnedCount l' :=
  (h.filter _).length_eq

theorem pinnedCount_updateFirst (p : WorkingMemoryItem → Bool)
    (f : WorkingMemoryItem → WorkingMemoryItem)
    (hf : ∀ i, (f i).pinned = i.pinned) (l : List WorkingMemoryItem) :
    pinnedCount (updateFirst p f l) = pinnedCount l := by
  induction l with
  | nil => rfl
  | cons x t ih =>
    simp only [updateFirst]
    cases h : p x with
    | true =>
      rw [if_pos rfl]
      unfold pinnedCount
      rw [List.filter_cons, List.filter_cons, hf x]
      cases hx : x.pinned <;> simp [hx]
    | false =>
      rw [if_neg (by decide)]
      unfold pinnedCount
      rw [List.filter_cons, List.filter_cons]
      cases hx : x.pinned <;> simp [hx] <;> exact ih

theorem length_cleanup_le (wm : WorkingMemory) (now : Int)
    (h : pinnedCount wm.items ≤ wm.max_items) :
    ((wm.cleanup now).items).length ≤ wm.max_items := by
  unfold cleanup
  set items1 := wm.items.filter (fun i => i.pinned || liveAt now i.expires_at)
    with h1
  set items2 := stableSortBy (keyLT sortKey) items1 with h2
  have hpc2 : pinnedCount items2 ≤ wm.max_items := by
    calc pinnedCount items2 = pinnedCount items1 :=
          pinnedCount_perm (perm_stableSortBy _ _)
      _ ≤ pinnedCount wm.items := pinnedCount_filter_le _ _
      _ ≤ wm.max_items := h
  by_cases hlen : wm.max_items < items2.length
  · simp only [hlen, if_true]
    rw [List.length_take]
    calc min (max wm.max_items (pinnedCount items2)) items2.length
        ≤ max wm.max_items (pinnedCount items2) := min_le_left _ _
      _ = wm.max_items := max_eq_left hpc2
  · simpa [hlen] using Nat.le_of_not_lt hlen

theorem length_remember_le (wm : WorkingMemory) (m : Memory)
    (ttl : Option Int) (now : Int) (h : wm.items.length ≤ wm.max_items) :
    ((wm.remember m ttl now).items).length ≤ wm.max_items := by
  unfold remember
  cases hmem : wm.items.any (fun i => i.memory_id == m.id) with
  | true =>
    dsimp only
    rw [if_pos rfl]
    refine length_cleanup_le _ now ?_
    dsimp only
    refine le_trans (le_of_eq (pinnedCount_updateFirst _ _ ?_ _))
      ((pinnedCount_le_length _).trans h)
    intro i
    rfl
  | false =>
    dsimp only
    rw [if_neg (by decide)]
    refine length_cleanup_le _ now ?_
    dsimp only
    unfold pinnedCount
    rw [List.filter_append]
    simpa using (pinnedCount_le_length wm.items).trans h

/-- `|items| ≤ max_items` holds in every reachable working-memory state. -/
theorem wm_reachable_length_le {wm : WorkingMemory} (h : WMReachable wm) :
    wm.items.length ≤ wm.max_items := by
  induction h with
  | init n => exact Nat.zero_le n
  | step h op ih =>
    rename_i wm0
    cases op with
    | rememberOp m ttl now => exact length_remember_le wm0 m ttl now ih
    | focusOp id now =>
      simp only [WMOp.apply]
      unfold focus
      cases hmem : wm0.items.any (fun i => i.memory_id == id) <;>
        simp [hmem, length_updateFirst, ih]
    | pinOp id =>
      simp only [WMOp.apply]
      unfold pin
      cases hmem : wm0.items.any (fun i => i.memory_id == id) <;>
        simp [hmem, length_updateFirst, ih]
    | unpinOp id =>
      simp only [WMOp.apply]
      unfold unpin
      cases hmem : wm0.items.any (fun i => i.memory_id == id) <;>
        simp [hmem, length_updateFirst, ih]
    | decayOp now =>
      simp only [WMOp.apply]
      unfold decay
      calc ((((wm0.items.filter _).map _).filter _)).length
          ≤ (((wm0.items.filter _)).map _).length := List.length_filter_le _ _
        _ = ((wm0.items.filter _)).length := List.length_map _ _
        _ ≤ wm0.items.length := List.length_filter_le _ _
        _ ≤ wm0.max_items := ih
    | clearOp => exact Nat.zero_le _

/-- In a list sorted pinned-first (pairwise descending `sortKey`), every
pinned member sits within the first `pinnedCount` positions, hence survives a
`take n` for any `n ≥ pinnedCount`. -/
theorem pinned_mem_take {l : List WorkingMemoryItem}
    (hs : List.Pairwise (fun a b => sortKey b ≤ sortKey a) l)
    {i : WorkingMemoryItem} (hi : i ∈ l) (hp : i.pinned = true) :
    ∀ n, pinnedCount l ≤ n → i ∈ l.take n := by
  induction l with
  | nil => cases hi
  | cons x t ih =>
    rcases List.pairwise_cons.mp hs with ⟨hx, ht⟩
    intro n hn
    match n with
    | 0 =>
      exact absurd (lt_of_lt_of_le (pinnedCount_pos_of_mem hi hp) hn)
        (lt_irrefl 0)
    | Nat.succ m =>
      rcases List.mem_cons.mp hi with h1 | h1
      · subst h1; exact List.mem_cons_self _ _
      · have hxp : x.pinned = true := by
          have hle : sortKey i ≤ sortKey x := hx i h1
          by_contra hfalse
          have hxf : x.pinned = false := by
            cases e : x.pinned
            · rfl
            · exact absurd e hfalse
          have : sortKey x < sortKey i := by
            unfold sortKey
            rw [hxf, hp]
            exact Prod.Lex.left _ _ (by decide)
          exact absurd hle (not_le_of_lt this)
        have hcnt : pinnedCount t ≤ m := by
          have : pinnedCount (x :: t) = pinnedCount t + 1 := by
            unfold pinnedCount
            rw [List.filter_cons, hxp]
            simp
          omega
        exact List.mem_cons_of_mem x (ih ht h1 m hcnt)

theorem pinned_expired_mem_decay (wm : WorkingMemory) (now : Int)
    {i : WorkingMemoryItem} (hi : i ∈ wm.items) (hp : i.pinned = true) :
    i ∈ (wm.decay now).items := by
  unfold decay
  refine List.mem_filter.mpr ⟨?_, by simp [hp]⟩
  have h1 : i ∈ wm.items.filter (fun j => j.pinned || liveAt now j.expires_at) :=
    List.mem_filter.mpr ⟨hi, by simp [hp]⟩
  have : (if i.pinned then i
      else { i with attention_score := i.attention_score * (19/20) }) = i := by
    simp [hp]
  simpa [this] using List.mem_map_of_mem
    (fun j => if j.pinned then j
      else { j with attention_score := j.attention_score * (19/20) }) h1

theorem pinned_mem_cleanup (wm : WorkingMemory) (now : Int)
    {i : WorkingMemoryItem} (hi : i ∈ wm.items) (hp : i.pinned = true) :
    i ∈ (wm.cleanup now).items := by
  unfold cleanup
  set items1 := wm.items.filter (fun j => j.pinned || liveAt now j.expires_at)
    with h1
  set items2 := stableSortBy (keyLT sortKey) items1 with h2
  have hi1 : i ∈ items1 := List.mem_filter.mpr ⟨hi, by simp [hp]⟩
  have hi2 : i ∈ items2 := mem_stableSortBy.mpr hi1
  by_cases hlen : wm.max_items < items2.length
  · simp only [hlen, if_true]
    refine pinned_mem_take ?_ hi2 hp _ (le_max_right _ _)
    exact pairwise_key_stableSortBy sortKey items1
  · simpa [hlen] using hi2

theorem expired_not_mem_get_context (wm : WorkingMemory) (now t : Int)
    {i : WorkingMemoryItem} (he : i.expires_at = some t) (ht : t ≤ now) :
    i ∉ wm.get_context now := by
  unfold get_context
  intro hmem
  have h1 : i ∈ wm.items.filter (fun j => liveAt now j.expires_at) :=
    mem_stableSortBy.mp hmem
  have h2 : liveAt now i.expires_at = true := (List.mem_filter.mp h1).2
  rw [he] at h2
  simp only [liveAt, decide_eq_true_eq] at h2
  exact absurd h2 (not_lt_of_ge ht)

end WorkingMemory

/-! ## Claims C7, C9, C10 -/

/-- **C7.** After any single working-memory operation (remember, focus, pin,
unpin, decay, clear), performed in any state the working memory can actually
reach from `WorkingMemory::new`, the number of items never exceeds
`max(max_items, pinned_count)` where `pinned_count` is the number of pinned
items in the resulting state. -/
theorem C7_working_memory_capacity {wm : WorkingMemory} (h : WMReachable wm)
    (op : WMOp) :
    ((op.apply wm).items).length ≤
      max (op.apply wm).max_items
        (WorkingMemory.pinnedCount (op.apply wm).items) :=
  le_trans (WorkingMemory.wm_reachable_length_le (WMReachable.step h op))
    (le_max_left _ _)

/-- Witness for C7: pinning an id in a fresh working memory of capacity 3. -/
theorem C7_working_memory_capacity_witness :
    (((WMOp.pinOp "x").apply (WorkingMemory.new 3)).items).length ≤
      max ((WMOp.pinOp "x").apply (WorkingMemory.new 3)).max_items
        (WorkingMemory.pinnedCount
          ((WMOp.pinOp "x").apply (WorkingMemory.new 3)).items) :=
  C7_working_memory_capacity (WMReachable.init 3) (WMOp.pinOp "x")

/-- **C9 (counterexample).** Calling `focus` or `pin` with an id that is not in
working memory does *not* fail with a `NotFound` error: both operations are
infallible (no error in their signature) and complete normally, returning the
unchanged state together with `false`. -/
theorem C9_focus_pin_unknown_id_counterexample :
    (WorkingMemory.new 20).focus "missing" 0 = (WorkingMemory.new 20, false) ∧
    (WorkingMemory.new 20).pin "missing" = (WorkingMemory.new 20, false) :=
  ⟨rfl, rfl⟩

/-- **C9 (amended).** Calling `focus` or `pin` with a memory id that is not
present in working memory returns `false` and leaves the state unchanged; no
`NotFound` error is raised (the operations cannot fail). -/
theorem C9_focus_pin_unknown_id_returns_false (wm : WorkingMemory)
    (id : String) (now : Int) (h : ∀ i ∈ wm.items, i.memory_id ≠ id) :
    wm.focus id now = (wm, false) ∧ wm.pin id = (wm, false) := by
  have hany : wm.items.any (fun i => i.memory_id == id) = false := by
    rw [List.any_eq_false]
    intro i hi
    simpa using h i hi
  constructor
  · unfold WorkingMemory.focus
    rw [if_neg (by simp [hany])]
  · unfold WorkingMemory.pin
    rw [if_neg (by simp [hany])]

/-- Witness for C9 (amended): unknown id in a fresh working memory. -/
theorem C9_focus_pin_unknown_id_returns_false_witness :
    (WorkingMemory.new 5).focus "m1" 0 = (WorkingMemory.new 5, false) ∧
    (WorkingMemory.new 5).pin "m1" = (WorkingMemory.new 5, false) :=
  C9_focus_pin_unknown_id_returns_false (WorkingMemory.new 5) "m1" 0
    (by intro i hi; cases hi)

/-- **C10.** A pinned working-memory item whose `expires_at` lies in the past
is never removed by `decay()` or `cleanup()` (pins override TTL for
retention), yet `get_context()` excludes it, because `get_context` filters
expired items regardless of the pinned flag. -/
theorem C10_pinned_expired_retained_but_hidden (wm : WorkingMemory)
    (now t : Int) (i : WorkingMemoryItem) (hi : i ∈ wm.items)
    (hp : i.pinned = true) (he : i.expires_at = some t) (ht : t ≤ now) :
    i ∈ (wm.decay now).items ∧ i ∈ (wm.cleanup now).items ∧
      i ∉ wm.get_context now :=
  ⟨WorkingMemory.pinned_expired_mem_decay wm now hi hp,
   WorkingMemory.pinned_mem_cleanup wm now hi hp,
   WorkingMemory.expired_not_mem_get_context wm now t he ht⟩

/-- Witness for C10: a pinned item that expired at t = 5, observed at
`now = 10`. -/
theorem C10_pinned_expired_retained_but_hidden_witness :
    pinnedExpiredItem ∈ (pinnedExpiredWM.decay 10).items ∧
    pinnedExpiredItem ∈ (pinnedExpiredWM.cleanup 10).items ∧
    pinnedExpiredItem ∉ pinnedExpiredWM.get_context 10 :=
  C10_pinned_expired_retained_but_hidden pinnedExpiredWM 10 5 pinnedExpiredItem
    (List.mem_cons_self _ _) rfl rfl (by decide)

/-! ## Claim C5 -/

/-- **C5 (code bug).** The store holds a group of 5 non-forgotten Preference
memories older than `consolidation_age_days` with importance below
`consolidation_threshold` — exactly the consolidation scenario of §4.J — yet
running maintenance with consolidation enabled leaves the store untouched and
reports `consolidated = 0`: no Summary memory is created and no original is
soft-deleted, because `run_maintenance` never invokes consolidation despite
its own `enable_consolidation` flag. -/
theorem C5_run_maintenance_ignores_consolidation :
    run_maintenance consolidationStore consolidationCfg consolidationNow =
      (consolidationStore,
        { decayed := 0, pruned := 0, merged := 0, consolidated := 0,
          checked := 0 }) ∧
    (consolidationStore.filter (fun m => !m.forgotten)).length = 5 ∧
    consolidationStore.all (fun m =>
      decide (m.memory_type = MemoryType.Preference) &&
      decide (m.created_at <
        consolidationNow - consolidationCfg.consolidation_age_days * 86400) &&
      decide (m.importance < consolidationCfg.consolidation_threshold)) =
      true := by
  refine ⟨rfl, rfl, ?_⟩
  norm_num [consolidationStore, oldPref, consolidationCfg, consolidationNow,
    MaintenanceConfig.default]

/-! ## Claim C6 -/

/-- **C6 (counterexample).** The file vector backend accepts an `upsert` of a
3-component vector into an index configured for dimension 8: the call
succeeds (the vector is stored) instead of failing with a `VectorDb` error,
so the dimension-mismatch guarantee does not hold for every backend
implementation. -/
theorem C6_file_backend_accepts_mismatch_counterexample :
    fileUpsert 8 [] "x" [1, 2, 3] = .ok [("x", [1, 2, 3])] := rfl

/-- **C6 (amended).** Only the LanceDB backend rejects dimension-mismatched
input with a `VectorDb` error (on both `upsert`, via `batch_for_upsert`, and
`search`); the file backend performs no dimension check at all — `upsert`
stores a vector of any length and `search` silently scores a length-mismatched
pair as 0 via `cosine_similarity`. -/
theorem C6_dimension_check_lancedb_only (dimension limit : Nat)
    (vector : List ℚ) (hv : vector.length ≠ dimension)
    (rest : List ℚ → Nat → Except MemoryError (List VectorSearchHit))
    (id : String) (table files : List (String × List ℚ))
    (a b : List ℝ) (hab : a.length ≠ b.length) :
    lancedbUpsert dimension table id vector =
      .error (.VectorDb (lancedbDimErrorMsg vector.length dimension)) ∧
    lancedbSearch dimension rest vector limit =
      .error (.VectorDb (lancedbDimErrorMsg vector.length dimension)) ∧
    fileUpsert dimension files id vector = .ok (insertA files id vector) ∧
    cosine_similarity a b = 0 := by
  refine ⟨?_, ?_, rfl, ?_⟩
  · unfold lancedbUpsert batch_for_upsert
    rw [if_pos hv]
    rfl
  · unfold lancedbSearch
    rw [if_pos hv]
  · unfold cosine_similarity
    rw [if_pos (Or.inl hab)]

/-- Witness for C6 (amended): a 3-component vector against dimension 8, and a
cosine over a mismatched pair of lengths 1 and 0. -/
theorem C6_dimension_check_lancedb_only_witness :
    lancedbUpsert 8 [] "x" [1, 2, 3] =
      .error (.VectorDb (lancedbDimErrorMsg 3 8)) ∧
    lancedbSearch 8 (fun _ _ => .ok []) [1, 2, 3] 5 =
      .error (.VectorDb (lancedbDimErrorMsg 3 8)) ∧
    fileUpsert 8 [] "x" [1, 2, 3] = .ok (insertA [] "x" [1, 2, 3]) ∧
    cosine_similarity [(0 : ℝ)] [] = 0 :=
  C6_dimension_check_lancedb_only 8 5 [1, 2, 3] (by decide)
    (fun _ _ => .ok []) "x" [] [] [(0 : ℝ)] [] (by decide)

/-! ## Claim C8: helper lemmas -/

set_option maxRecDepth 8000

theorem updAdd_ne (v : Fin 384 → ℝ) (i : Nat) (x : ℝ) (j : Fin 384)
    (h : (j : Nat) ≠ i) : updAdd v i x j = v j := by
  unfold updAdd
  by_cases hi : i < 384
  · rw [dif_pos hi]
    exact Function.update_noteq (Fin.ne_of_val_ne h) _ v
  · rw [dif_neg hi]

theorem updSet_ne (v : Fin 384 → ℝ) (i : Nat) (x : ℝ) (j : Fin 384)
    (h : (j : Nat) ≠ i) : updSet v i x j = v j := by
  unfold updSet
  by_cases hi : i < 384
  · rw [dif_pos hi]
    exact Function.update_noteq (Fin.ne_of_val_ne h) _ v
  · rw [dif_neg hi]

theorem updSet_eq (v : Fin 384 → ℝ) (i : Nat) (x : ℝ) (j : Fin 384)
    (h : (j : Nat) = i) : updSet v i x j = x := by
  unfold updSet
  have hi : i < 384 := h ▸ j.isLt
  rw [dif_pos hi]
  have : j = ⟨i, hi⟩ := Fin.ext h
  rw [this, Function.update_same]

theorem foldl_entry_invariant {β : Type _}
    (step : (Fin 384 → ℝ) → β → (Fin 384 → ℝ)) (l : List β)
    (v : Fin 384 → ℝ) (j : Fin 384)
    (h : ∀ w b, b ∈ l → step w b j = w j) :
    (l.foldl step v) j = v j := by
  induction l generalizing v with
  | nil => rfl
  | cons b t ih =>
    rw [List.foldl_cons, ih]
    · exact h v b (List.mem_cons_self _ _)
    · intro w b1 hb1
      exact h w b1 (List.mem_cons_of_mem _ hb1)

/-- Dimension 352 of the pre-normalization vector carries exactly
`token_count / 64`: the accumulation phases only touch dimensions below 352,
the later global assignments and the `ln_1p` bonus only dimensions above. -/
theorem rawEmbedding_entry352 (text : String) :
    rawEmbedding text ⟨352, by omega⟩ =
      ((tokenize text).length : ℝ) / 64 := by
  unfold rawEmbedding
  dsimp only
  rw [foldl_entry_invariant _ _ _ _
    (fun w b _ => updAdd_ne w _ _ _ (by
      show 352 ≠ 360 + b.1 % 24
      omega))]
  rw [updSet_ne _ _ _ _ (by decide), updSet_ne _ _ _ _ (by decide),
    updSet_ne _ _ _ _ (by decide), updSet_ne _ _ _ _ (by decide),
    updSet_ne _ _ _ _ (by decide), updSet_ne _ _ _ _ (by decide),
    updSet_ne _ _ _ _ (by decide)]
  rw [updSet_eq _ _ _ _ (by decide)]

theorem sumsq_rawEmbedding_pos (text : String) (h : tokenize text ≠ []) :
    0 < ∑ i, rawEmbedding text i * rawEmbedding text i := by
  have h352 : rawEmbedding text ⟨352, by omega⟩ =
      ((tokenize text).length : ℝ) / 64 := rawEmbedding_entry352 text
  have hlen : 0 < (tokenize text).length := List.length_pos.mpr h
  have hpos : 0 < rawEmbedding text ⟨352, by omega⟩ *
      rawEmbedding text ⟨352, by omega⟩ := by
    rw [h352]
    have : (0 : ℝ) < ((tokenize text).length : ℝ) / 64 := by
      have : (0 : ℝ) < ((tokenize text).length : ℝ) := by
        exact_mod_cast hlen
      linarith
    exact mul_pos this this
  have hle : rawEmbedding text ⟨352, by omega⟩ *
      rawEmbedding text ⟨352, by omega⟩ ≤
      ∑ i, rawEmbedding text i * rawEmbedding text i :=
    @Finset.single_le_sum (Fin 384) ℝ _
      (fun i => rawEmbedding text i * rawEmbedding text i) Finset.univ
      (fun i _ => mul_self_nonneg _) ⟨352, by omega⟩ (Finset.mem_univ _)
  exact lt_of_lt_of_le hpos hle

theorem zipWith_mul_self (l : List ℝ) :
    List.zipWith (· * ·) l l = l.map (fun x => x * x) := by
  induction l with
  | nil => rfl
  | cons x t ih => simp [ih]

/-- Self-cosine of any vector with positive squared norm is 1. -/
theorem cosine_similarity_self (v : Fin 384 → ℝ)
    (hv : 0 < ∑ i, v i * v i) :
    cosine_similarity (embToList v) (embToList v) = 1 := by
  have hsum : ((embToList v).map (fun x => x * x)).sum = ∑ i, v i * v i := by
    unfold embToList
    rw [List.map_map]
    rw [Fin.sum_univ_def]
    rfl
  have hlen : (embToList v).length = 384 := by
    unfold embToList
    rw [List.length_map, List.length_finRange]
  have hne : ¬((embToList v).length ≠ (embToList v).length ∨
      embToList v = []) := by
    push_neg
    refine ⟨rfl, ?_⟩
    intro e
    rw [e] at hlen
    simp at hlen
  unfold cosine_similarity
  rw [if_neg hne]
  dsimp only
  rw [zipWith_mul_self, hsum]
  have hnorm : Real.sqrt (∑ i, v i * v i) ≠ 0 :=
    ne_of_gt (Real.sqrt_pos.mpr hv)
  rw [if_neg (by push_neg; exact ⟨hnorm, hnorm⟩)]
  rw [Real.mul_self_sqrt (le_of_lt hv)]
  exact div_self (ne_of_gt hv)

/-- Scaling each entry by the same nonzero factor keeps the squared norm
positive; used to carry positivity through L2 normalization. -/
theorem sumsq_scaled_pos (v : Fin 384 → ℝ) (c : ℝ) (hc : c ≠ 0)
    (hv : 0 < ∑ i, v i * v i) :
    0 < ∑ i, (v i / c) * (v i / c) := by
  have : ∀ i : Fin 384, (v i / c) * (v i / c) = (v i * v i) / (c * c) := by
    intro i
    field_simp
  rw [Finset.sum_congr rfl (fun i _ => this i), ← Finset.sum_div]
  exact div_pos hv (mul_self_pos.mpr hc)

/-! ## Claim C3: recall lemmas -/

theorem length_assignRanks (n : Nat) (l : List MemorySearchResult) :
    (assignRanks n l).length = l.length := by
  induction l generalizing n with
  | nil => rfl
  | cons r t ih => simp [assignRanks, ih]

theorem assignRanks_map_proj (n : Nat) (l : List MemorySearchResult) :
    (assignRanks n l).map (fun r => (r.memory, r.score)) =
      l.map (fun r => (r.memory, r.score)) := by
  induction l generalizing n with
  | nil => rfl
  | cons r t ih => simp [assignRanks, ih]

theorem assignRanks_get_rank (l : List MemorySearchResult) (n i : Nat)
    (h : i < (assignRanks n l).length) :
    ((assignRanks n l).get ⟨i, h⟩).rank = n + i + 1 := by
  induction l generalizing n i with
  | nil => cases h
  | cons r t ih =>
    match i with
    | 0 => rfl
    | Nat.succ j =>
      have hj : j < (assignRanks (n + 1) t).length := by
        have := h
        simp only [assignRanks, List.length_cons] at this
        omega
      have := ih (n + 1) j hj
      simp only [assignRanks, List.get]
      omega

theorem assignRanks_mem {r : MemorySearchResult} {n : Nat}
    {l : List MemorySearchResult} (h : r ∈ assignRanks n l) :
    ∃ r0 ∈ l, r.memory = r0.memory ∧ r.score = r0.score := by
  induction l generalizing n with
  | nil => cases h
  | cons x t ih =>
    rcases List.mem_cons.mp h with h1 | h1
    · exact ⟨x, List.mem_cons_self _ _, by rw [h1], by rw [h1]⟩
    · rcases ih h1 with ⟨r0, hr0, he⟩
      exact ⟨r0, List.mem_cons_of_mem _ hr0, he⟩

/-- Pairwise relations that only inspect memory and score transfer across
`assignRanks`. -/
theorem assignRanks_pairwise_score (n : Nat) (l : List MemorySearchResult)
    (h : List.Pairwise (fun a b => b.score ≤ a.score) l) :
    List.Pairwise (fun a b => b.score ≤ a.score) (assignRanks n l) := by
  have key : ∀ (l' : List MemorySearchResult),
      List.Pairwise (fun a b => b.score ≤ a.score) l' ↔
      List.Pairwise (fun x y : Memory × ℚ => y.2 ≤ x.2)
        (l'.map (fun r => (r.memory, r.score))) := by
    intro l'
    rw [List.pairwise_map]
  rw [key, assignRanks_map_proj, ← key]
  exact h

theorem mem_search_fulltext_not_forgotten {r : MemorySearchResult}
    {scored_ids : List (String × ℚ)} {load : String → Option Memory}
    {boost_recent : Bool} {now : Int}
    (h : r ∈ search_fulltext scored_ids load boost_recent now) :
    r.memory.forgotten = false := by
  unfold search_fulltext at h
  rcases assignRanks_mem h with ⟨r0, hr0, hm, _⟩
  have hr1 := mem_stableSortBy.mp hr0
  rcases List.mem_filterMap.mp hr1 with ⟨p, _, heq⟩
  rcases ho : load p.2.1 with _ | memory
  · rw [ho] at heq
    cases heq
  · rw [ho] at heq
    cases hf : memory.forgotten with
    | true =>
      simp [hf] at heq
    | false =>
      simp only [hf, Bool.false_eq_true, if_false, Option.some.injEq] at heq
      rw [hm, ← heq]
      exact hf

/-- **C3 (amended).** For every Tantivy candidate list, store contents, clock
and limit: `recall(q, k)` returns at most `k` results, with non-increasing
(descending, ties allowed) scores, 1-based ranks equal to each result's
position in the sorted order, and every returned memory has
`forgotten = false`. -/
theorem C3_recall_bounded_sorted_ranked_unforgotten
    (scored_ids : List (String × ℚ)) (load : String → Option Memory)
    (now : Int) (limit : Nat) :
    (MemoryCortex.recall scored_ids load now limit).length ≤ limit ∧
    List.Pairwise (fun a b => b.score ≤ a.score)
      (MemoryCortex.recall scored_ids load now limit) ∧
    (∀ i (h : i < (MemoryCortex.recall scored_ids load now limit).length),
      ((MemoryCortex.recall scored_ids load now limit).get ⟨i, h⟩).rank =
        i + 1) ∧
    ∀ r ∈ MemoryCortex.recall scored_ids load now limit,
      r.memory.forgotten = false := by
  unfold MemoryCortex.recall
  dsimp only
  refine ⟨?_, ?_, ?_, ?_⟩
  · rw [length_assignRanks]
    exact List.length_take_le _ _
  · refine assignRanks_pairwise_score _ _ ?_
    refine List.Pairwise.sublist (List.take_sublist _ _) ?_
    exact pairwise_key_stableSortBy (fun r : MemorySearchResult => r.score) _
  · intro i h
    rw [assignRanks_get_rank]
    omega
  · intro r hr
    rcases assignRanks_mem hr with ⟨r0, hr0, hm, _⟩
    have hr1 := mem_stableSortBy.mp ((List.take_sublist _ _).mem hr0)
    rcases List.mem_map.mp hr1 with ⟨r1, hr1m, heq⟩
    have hforg : r1.memory.forgotten = false :=
      mem_search_fulltext_not_forgotten hr1m
    rw [hm, ← heq]
    split <;> exact hforg

/-- **C3 (counterexample).** Two candidates whose memories differ only in id
tie exactly in recall's combined score, so the returned scores are *not*
strictly decreasing. -/
theorem C3_recall_strictly_decreasing_counterexample :
    ¬ List.Pairwise (fun a b => b.score < a.score)
      (MemoryCortex.recall [("a", 1), ("b", 1)] tieLoad 0 5) := by
  intro hp
  have hmap : (MemoryCortex.recall [("a", 1), ("b", 1)] tieLoad 0 5).map
      (fun r => r.score) = [199/200, 199/200] := by
    norm_num [MemoryCortex.recall, search_fulltext, assignRanks, stableSortBy,
      insortBy, keyLT, tieLoad, tieMemory, List.enum, List.enumFrom,
      Int.zero_tdiv]
  have hp2 : List.Pairwise (fun x y : ℚ => y < x)
      ((MemoryCortex.recall [("a", 1), ("b", 1)] tieLoad 0 5).map
        (fun r => r.score)) :=
    List.Pairwise.map _ (fun a b hab => hab) hp
  rw [hmap] at hp2
  have := (List.pairwise_cons.mp hp2).1 (199/200) (List.mem_cons_self _ _)
  exact absurd this (lt_irrefl _)

/-- **C8.** The reference embedding is deterministic — `embed(x) = embed(x)`
for every input `x` (it is a pure function of the text) — and for every input
with at least one token the cosine similarity of `embed(x)` with itself is
exactly 1; an input with no tokens embeds to the zero vector. -/
theorem C8_embedding_deterministic_self_cosine_one (x : String) :
    generate_embedding x = generate_embedding x ∧
    (tokenize x = [] → generate_embedding x = fun _ => 0) ∧
    (tokenize x ≠ [] →
      cosine_similarity (embToList (generate_embedding x))
        (embToList (generate_embedding x)) = 1) := by
  refine ⟨rfl, ?_, ?_⟩
  · intro h
    unfold generate_embedding
    rw [if_pos h]
  · intro h
    have hS : 0 < ∑ i, rawEmbedding x i * rawEmbedding x i :=
      sumsq_rawEmbedding_pos x h
    have hnorm : 0 < Real.sqrt (∑ i, rawEmbedding x i * rawEmbedding x i) :=
      Real.sqrt_pos.mpr hS
    have hge : generate_embedding x = fun i => rawEmbedding x i /
        Real.sqrt (∑ j, rawEmbedding x j * rawEmbedding x j) := by
      unfold generate_embedding
      rw [if_neg h]
      dsimp only
      rw [if_pos hnorm]
    rw [hge]
    exact cosine_similarity_self _ (sumsq_scaled_pos _ _ (ne_of_gt hnorm) hS)

/-- Witness for C8: the two-token input `"hi there"`. -/
theorem C8_embedding_deterministic_self_cosine_one_witness :
    tokenize "hi there" ≠ [] ∧
    cosine_similarity (embToList (generate_embedding "hi there"))
      (embToList (generate_embedding "hi there")) = 1 :=
  ⟨by decide,
   (C8_embedding_deterministic_self_cosine_one "hi there").2.2 (by decide)⟩

/-! ## Claims C1, C2, C4: hybrid retrieval lemmas -/

theorem lookupA_insertA_same [BEq κ] [LawfulBEq κ] (m : List (κ × β))
    (k : κ) (v : β) : lookupA (insertA m k v) k = some v := by
  induction m with
  | nil => simp [insertA, lookupA]
  | cons p t ih =>
    by_cases h : p.1 == k
    · simp [insertA, h, lookupA]
    · simp only [insertA]
      rw [if_neg (by simpa using h)]
      simp only [lookupA]
      rw [if_neg (by simpa using h)]
      exact ih

theorem lookupA_insertA_ne [BEq κ] [LawfulBEq κ] (m : List (κ × β))
    (k k' : κ) (v : β) (h : ¬(k' == k) = true) :
    lookupA (insertA m k v) k' = lookupA m k' := by
  induction m with
  | nil =>
    simp only [insertA, lookupA]
    rw [if_neg (by simpa using fun e => h (by simp [e]))]
  | cons p t ih =>
    by_cases hp : p.1 == k
    · simp only [insertA, hp, if_true, lookupA]
      by_cases hk : p.1 == k'
      · exfalso
        have hp' : p.1 = k := by simpa using hp
        have hk' : p.1 = k' := by simpa using hk
        have hkk : k' = k := by rw [← hk', hp']
        exact h (by simp [hkk])
      · rw [if_neg (by simpa using hk), if_neg (by simpa using hk)]
    · simp only [insertA]
      rw [if_neg (by simpa using hp)]
      simp only [lookupA]
      by_cases hk : p.1 == k'
      · rw [if_pos (by simpa using hk), if_pos (by simpa using hk)]
      · rw [if_neg (by simpa using hk), if_neg (by simpa using hk)]
        exact ih

theorem graphRawOf_updateParts_same (m : List (String × ScoreParts))
    (id : String) (f : ScoreParts → ScoreParts) :
    graphRawOf (updateParts m id f) id =
      (f ((lookupA m id).getD ScoreParts.zero)).graph_raw := by
  unfold graphRawOf updateParts
  rw [lookupA_insertA_same]
  rfl

theorem graphRawOf_updateParts_ne (m : List (String × ScoreParts))
    (id id' : String) (f : ScoreParts → ScoreParts) (h : id' ≠ id) :
    graphRawOf (updateParts m id f) id' = graphRawOf m id' := by
  unfold graphRawOf updateParts
  rw [lookupA_insertA_ne _ _ _ _ (by simpa using h)]

/-- Characterization of one seed's neighbor walk: afterwards the expanded
set contains exactly the previously expanded ids plus the (filtered) reached
ids, and `graph_raw` grows by `seed_score × multiplier` exactly for ids newly
reached by this walk. -/
theorem expandNeighbors_spec (ft : Option MemoryType) (sc : ℚ)
    (rm : List (String × ℚ)) (ns : List Memory) :
    ∀ (exp : List String) (parts : List (String × ScoreParts)),
    (∀ j, (expandNeighbors ft sc rm ns (exp, parts)).1.contains j =
      (exp.contains j || reachedB ft ns j)) ∧
    (∀ id, graphRawOf (expandNeighbors ft sc rm ns (exp, parts)).2 id =
      graphRawOf parts id +
        (if exp.contains id = false ∧ reachedB ft ns id = true then
          sc * (lookupA rm id).getD 1 else 0)) := by
  induction ns with
  | nil =>
    intro exp parts
    constructor
    · intro j
      simp [expandNeighbors, reachedB]
    · intro id
      simp [expandNeighbors, reachedB]
  | cons n t ih =>
    intro exp parts
    have hfold : expandNeighbors ft sc rm (n :: t) (exp, parts) =
        expandNeighbors ft sc rm t (expandStep ft sc rm (exp, parts) n) :=
      rfl
    cases hforg : n.forgotten with
    | true =>
      have hs : expandStep ft sc rm (exp, parts) n = (exp, parts) := by
        simp [expandStep, hforg]
      rw [hfold, hs]
      rcases ih exp parts with ⟨hc, hg⟩
      refine ⟨fun j => ?_, fun id => ?_⟩
      · rw [hc j]
        simp [reachedB, List.any_cons, hforg]
      · rw [hg id]
        simp [reachedB, List.any_cons, hforg]
    | false =>
      cases hok : typeOk ft n.memory_type with
      | false =>
        have hs : expandStep ft sc rm (exp, parts) n = (exp, parts) := by
          simp [expandStep, hforg, hok]
        rw [hfold, hs]
        rcases ih exp parts with ⟨hc, hg⟩
        refine ⟨fun j => ?_, fun id => ?_⟩
        · rw [hc j]
          simp [reachedB, List.any_cons, hok]
        · rw [hg id]
          simp [reachedB, List.any_cons, hok]
      | true =>
        by_cases hcont : exp.contains n.id = true
        · have hs : expandStep ft sc rm (exp, parts) n = (exp, parts) := by
            unfold expandStep
            rw [if_neg (by simp [hforg]), if_neg (by simp [hok]),
              if_pos hcont]
          rw [hfold, hs]
          rcases ih exp parts with ⟨hc, hg⟩
          refine ⟨fun j => ?_, fun id => ?_⟩
          · rw [hc j]
            by_cases hj : n.id = j
            · subst hj
              rw [hcont]
              simp
            · have hj' : ¬j = n.id := fun e => hj e.symm
              have hbeq : (n.id == j) = false := beq_eq_false_iff_ne.mpr hj
              simp [reachedB, List.any_cons, hforg, hok, hj, hj', hbeq]
          · rw [hg id]
            by_cases hj : n.id = id
            · subst hj
              rw [if_neg (fun hcc => by rw [hcont] at hcc; cases hcc.1),
                if_neg (fun hcc => by rw [hcont] at hcc; cases hcc.1)]
            · have hj' : ¬id = n.id := fun e => hj e.symm
              have hbeq : (n.id == id) = false := beq_eq_false_iff_ne.mpr hj
              simp [reachedB, List.any_cons, hj, hj', hbeq]
        · have hs : expandStep ft sc rm (exp, parts) n =
              (n.id :: exp,
                updateParts parts n.id (fun p =>
                  { p with graph_raw :=
                      p.graph_raw + sc * (lookupA rm n.id).getD 1 })) := by
            unfold expandStep
            rw [if_neg (by simp [hforg]), if_neg (by simp [hok]),
              if_neg hcont]
          rw [hfold, hs]
          rcases ih (n.id :: exp) (updateParts parts n.id _) with ⟨hc, hg⟩
          refine ⟨fun j => ?_, fun id => ?_⟩
          · rw [hc j]
            by_cases hj : n.id = j
            · subst hj
              simp [reachedB, List.any_cons, hforg, hok, List.contains_cons]
            · have hj' : ¬j = n.id := fun e => hj e.symm
              have hbeq : (n.id == j) = false := beq_eq_false_iff_ne.mpr hj
              simp [reachedB, List.any_cons, hforg, hok, List.contains_cons,
                hj, hj', hbeq]
          · rw [hg id]
            by_cases hj : n.id = id
            · subst hj
              rw [graphRawOf_updateParts_same]
              have hcont2 : ¬((n.id :: exp).contains n.id = false) := by
                simp [List.contains_cons]
              have hreach : reachedB ft (n :: t) n.id = true := by
                simp [reachedB, List.any_cons, hforg, hok]
              rw [if_neg (by simp [hcont2])]
              rw [if_pos ⟨Bool.eq_false_iff.mpr hcont, hreach⟩]
              show graphRawOf parts n.id + sc * _ + 0 = _
              rw [add_zero]
            · rw [graphRawOf_updateParts_ne _ _ _ _ (fun e => hj e.symm)]
              have hj' : ¬id = n.id := fun e => hj e.symm
              have hcont2 : (n.id :: exp).contains id = exp.contains id := by
                simp [List.contains_cons, hj']
              have hreach : reachedB ft (n :: t) id = reachedB ft t id := by
                have hbeq : (n.id == id) = false := beq_eq_false_iff_ne.mpr hj
                simp [reachedB, List.any_cons, hbeq]
              rw [hcont2, hreach]

theorem firstSeedContribution_cons_pos
    (gnp : String → List Memory × List Association) (ft : Option MemoryType)
    (s : String × ℚ) (rest : List (String × ℚ)) (id : String)
    (h : reachedB ft (gnp s.1).1 id = true) :
    firstSeedContribution gnp ft (s :: rest) id =
      s.2 * ((lookupA (relMultMap s.1 (gnp s.1).2) id).getD 1) := by
  unfold firstSeedContribution
  rw [List.find?_cons_of_pos _ (by simpa using h)]

theorem firstSeedContribution_cons_neg
    (gnp : String → List Memory × List Association) (ft : Option MemoryType)
    (s : String × ℚ) (rest : List (String × ℚ)) (id : String)
    (h : reachedB ft (gnp s.1).1 id = false) :
    firstSeedContribution gnp ft (s :: rest) id =
      firstSeedContribution gnp ft rest id := by
  unfold firstSeedContribution
  rw [List.find?_cons_of_neg _ (by simp [h])]

/-- Characterization of the whole graph-expansion loop (for a `get_neighbors`
that does not fail): it succeeds, and each id's `graph_raw` grows by exactly
the contribution of the first seed that reaches it (nothing if the id was
already in the initial expanded set). -/
theorem expandSeeds_pure_spec (gnp : String → List Memory × List Association)
    (d : Nat) (ft : Option MemoryType) :
    ∀ (seeds : List (String × ℚ)) (exp : List String)
      (parts : List (String × ScoreParts)),
    ∃ m, expandSeeds (fun i _ => Except.ok (gnp i)) d ft seeds exp parts =
        Except.ok m ∧
      ∀ id, graphRawOf m id = graphRawOf parts id +
        (if exp.contains id = true then 0
         else firstSeedContribution gnp ft seeds id) := by
  intro seeds
  induction seeds with
  | nil =>
    intro exp parts
    refine ⟨parts, rfl, fun id => ?_⟩
    unfold firstSeedContribution
    simp
  | cons s rest ih =>
    intro exp parts
    rcases s with ⟨sid, ssc⟩
    have hstep : expandSeeds (fun i _ => Except.ok (gnp i)) d ft
        ((sid, ssc) :: rest) exp parts =
        expandSeeds (fun i _ => Except.ok (gnp i)) d ft rest
          (expandNeighbors ft ssc (relMultMap sid (gnp sid).2) (gnp sid).1
            (exp, parts)).1
          (expandNeighbors ft ssc (relMultMap sid (gnp sid).2) (gnp sid).1
            (exp, parts)).2 := rfl
    rcases expandNeighbors_spec ft ssc (relMultMap sid (gnp sid).2)
      (gnp sid).1 exp parts with ⟨hc, hg⟩
    rcases ih (expandNeighbors ft ssc (relMultMap sid (gnp sid).2)
        (gnp sid).1 (exp, parts)).1
      (expandNeighbors ft ssc (relMultMap sid (gnp sid).2) (gnp sid).1
        (exp, parts)).2 with ⟨m, hm, hgm⟩
    refine ⟨m, by rw [hstep]; exact hm, fun id => ?_⟩
    rw [hgm id, hg id, hc id]
    by_cases hexp : exp.contains id = true
    · rw [hexp]
      simp
    · have hexp' : exp.contains id = false := Bool.eq_false_iff.mpr hexp
      cases hreach : reachedB ft (gnp sid).1 id with
      | true =>
        rw [hexp',
          firstSeedContribution_cons_pos gnp ft (sid, ssc) rest id hreach]
        simp [add_assoc]
      | false =>
        rw [hexp',
          firstSeedContribution_cons_neg gnp ft (sid, ssc) rest id hreach]
        simp

/-- **C1 (counterexample).** Seeds `s1` (score 2) and `s2` (score 1) are both
connected to `n` by a `RelatedTo` edge (multiplier 1).  The claim's reading
(`specGraphScore`, the sum over all seeds that reach `n`) gives
`2·1 + 1·1 = 3`, but the code's expansion (`expandSeeds`) accumulates only
the first seed's contribution `2·1 = 2`: a neighbor reachable from two seeds
does *not* receive contributions from both. -/
theorem C1_graph_score_not_summed_counterexample :
    Except.map (fun m => graphRawOf m "n")
      (expandSeeds (fun i _ => Except.ok (c1Neighbors i)) 1 none
        [("s1", 2), ("s2", 1)] [] []) = Except.ok 2 ∧
    specGraphScore c1Neighbors none [("s1", 2), ("s2", 1)] "n" = 3 ∧
    (2 : ℚ) ≠ 3 := by
  refine ⟨?_, ?_, by norm_num⟩
  · norm_num [expandSeeds, expandNeighbors, expandStep, c1Neighbors,
      relMultMap, insertA, lookupA, updateParts, graphRawOf, typeOk,
      tieMemory, ScoreParts.zero, RelationType.score_multiplier, Except.map,
      Except.bind, bind]
  · simp [specGraphScore, c1Neighbors, reachedB, relMultMap, insertA,
      lookupA, typeOk, tieMemory, RelationType.score_multiplier]
    norm_num

/-- **C1 (amended).** In hybrid retrieval's graph expansion, every id reached
from the seed set accumulates exactly *one* contribution: the first seed (in
the processed order, seeds sorted by raw score descending) whose filtered
neighbor list contains the id contributes `seed_score × relation_multiplier`;
the `expanded` dedup set makes every later seed's contribution — including
that of a second seed reaching the same neighbor — be skipped. -/
theorem C1_graph_score_first_seed_only
    (gnp : String → List Memory × List Association) (d : Nat)
    (ft : Option MemoryType) (seeds : List (String × ℚ))
    (parts0 : List (String × ScoreParts)) (id : String)
    (m : List (String × ScoreParts))
    (h : expandSeeds (fun i _ => Except.ok (gnp i)) d ft seeds [] parts0 =
      Except.ok m) :
    graphRawOf m id = graphRawOf parts0 id +
      firstSeedContribution gnp ft seeds id := by
  rcases expandSeeds_pure_spec gnp d ft seeds [] parts0 with ⟨m2, hm2, hgm⟩
  rw [h] at hm2
  cases hm2
  simpa using hgm id

/-- Witness for C1 (amended): the shared-neighbor scenario; the code's parts
map carries `graph_raw = 2` for `n`, matching the first (highest-scored)
seed's contribution alone. -/
theorem C1_graph_score_first_seed_only_witness :
    graphRawOf c1ResultParts "n" = graphRawOf [] "n" +
      firstSeedContribution c1Neighbors none [("s1", 2), ("s2", 1)] "n" :=
  C1_graph_score_first_seed_only c1Neighbors 1 none [("s1", 2), ("s2", 1)]
    [] "n" c1ResultParts
    (by simp [expandSeeds, expandNeighbors, expandStep, c1Neighbors,
      relMultMap, insertA, lookupA, updateParts, typeOk, tieMemory,
      ScoreParts.zero, RelationType.score_multiplier, c1ResultParts,
      Except.bind, bind])

/-- **C2 (counterexample).** With a BM25 candidate available, a failing
vector-backend search makes `hybrid_rank` return the error itself — not a
result computed from BM25, graph, importance and recency alone. -/
theorem C2_vector_error_propagates_counterexample :
    hybrid_rank [{ memory := tieMemory "a", score := 1, rank := 1 }]
      (some (fun _ _ => Except.error (.VectorDb "vector backend down")))
      (some (Except.ok [[1]]))
      tieLoadE tieGNe HybridSearchConfig.default none 0 ["a"] [] ["a"] =
      Except.error (.VectorDb "vector backend down") := rfl

/-- **C2 (amended).** If the query embedding or the vector backend's search
fails during hybrid retrieval, `hybrid_rank` propagates the failure to the
caller (an embedding failure wrapped as `VectorDb("Embedding failed: ..")`,
a search failure unchanged); no degraded BM25-only result is returned. -/
theorem C2_vector_error_propagates (bm25_results : List MemorySearchResult)
    (f : List ℚ → Nat → Except MemoryError (List VectorSearchHit))
    (load_memory : String → Except MemoryError (Option Memory))
    (get_neighbors :
      String → Nat → Except MemoryError (List Memory × List Association))
    (cfg : HybridSearchConfig) (filter_type : Option MemoryType)
    (now : Int) (bm25Iter vecIter partsIter : List String) :
    (∀ s : String,
      hybrid_rank bm25_results (some f) (some (Except.error s)) load_memory
        get_neighbors cfg filter_type now bm25Iter vecIter partsIter =
        Except.error (.VectorDb ("Embedding failed: " ++ s))) ∧
    (∀ (vs : List (List ℚ)) (v : List ℚ) (e : MemoryError),
      vs.head? = some v → f v cfg.vector_limit = Except.error e →
      hybrid_rank bm25_results (some f) (some (Except.ok vs)) load_memory
        get_neighbors cfg filter_type now bm25Iter vecIter partsIter =
        Except.error e) := by
  constructor
  · intro s
    rcases hbp : bm25Phase bm25_results cfg.bm25_limit filter_type with
      ⟨bm, p1⟩
    have hv : vectorPhase (some f) (some (Except.error s)) cfg.vector_limit
        p1 = Except.error (.VectorDb ("Embedding failed: " ++ s)) := rfl
    simp only [hybrid_rank, hbp]
    rw [hv]
    rfl
  · intro vs v e hhead hf
    rcases hbp : bm25Phase bm25_results cfg.bm25_limit filter_type with
      ⟨bm, p1⟩
    have hv : vectorPhase (some f) (some (Except.ok vs)) cfg.vector_limit
        p1 = Except.error e := by
      unfold vectorPhase
      dsimp only [bind, Except.bind]
      rw [hhead]
      dsimp only [bind, Except.bind]
      rw [hf]
    simp only [hybrid_rank, hbp]
    rw [hv]
    rfl

/-- Witness for C2 (amended): a concrete failing embedder and a concrete
failing backend. -/
theorem C2_vector_error_propagates_witness :
    (hybrid_rank []
        (some (fun _ _ => Except.error (MemoryError.VectorDb "down")))
        (some (Except.error "embedder broke")) tieLoadE tieGNe
        HybridSearchConfig.default none 0 [] [] [] =
      Except.error (.VectorDb ("Embedding failed: " ++ "embedder broke"))) ∧
    (hybrid_rank []
        (some (fun _ _ => Except.error (MemoryError.VectorDb "down")))
        (some (Except.ok [[1]])) tieLoadE tieGNe
        HybridSearchConfig.default none 0 [] [] [] =
      Except.error (MemoryError.VectorDb "down")) :=
  ⟨(C2_vector_error_propagates []
      (fun _ _ => Except.error (MemoryError.VectorDb "down")) tieLoadE tieGNe
      HybridSearchConfig.default none 0 [] [] []).1 "embedder broke",
   (C2_vector_error_propagates []
      (fun _ _ => Except.error (MemoryError.VectorDb "down")) tieLoadE tieGNe
      HybridSearchConfig.default none 0 [] [] []).2 [[1]] [1]
      (MemoryError.VectorDb "down") rfl rfl⟩

/-- **C4 (counterexample).** Hybrid retrieval is *not* deterministic for
identical store, index, vector state and clock, and ties are *not* broken by
id ascending.  (a) Two candidates (ids `a < b`) tie exactly in the fused
score; varying only the iteration order of the final candidate `HashMap`
(an order the Rust runtime randomizes) changes the result, and one order
returns the tied candidates as `[b, a]`, not id-ascending.  (b) Varying only
the iteration order of the `bm25_map` walked by seed construction, between
BM25-tied seeds `x` and `y` (edges `x→n1` RelatedTo 1, `x→n2` Updates 1.5,
`y→n2` Contradicts 0.5), flips which seed reaches `n2` first, hence the
normalized graph scores, hence the output order of `n1` and `n2` — even with
the candidate-map iteration order held identical. -/
theorem C4_iteration_order_counterexample :
    (hybrid_rank tieBm25 none none tieLoadE tieGNe HybridSearchConfig.default
        none 0 ["a", "b"] [] ["a", "b"] ≠
      hybrid_rank tieBm25 none none tieLoadE tieGNe
        HybridSearchConfig.default none 0 ["a", "b"] [] ["b", "a"]) ∧
    Except.map (fun rs => rs.map (fun r => r.memory.id))
      (hybrid_rank tieBm25 none none tieLoadE tieGNe
        HybridSearchConfig.default none 0 ["a", "b"] [] ["b", "a"]) =
      Except.ok ["b", "a"] ∧
    hybrid_rank seedBm25 none none seedLoadE seedGNe
        HybridSearchConfig.default none 0 ["x", "y"] []
        ["x", "y", "n1", "n2"] ≠
      hybrid_rank seedBm25 none none seedLoadE seedGNe
        HybridSearchConfig.default none 0 ["y", "x"] []
        ["x", "y", "n1", "n2"] := by
  have h1 : Except.map (fun rs => rs.map (fun r => r.memory.id))
      (hybrid_rank tieBm25 none none tieLoadE tieGNe
        HybridSearchConfig.default none 0 ["a", "b"] [] ["a", "b"]) =
      Except.ok ["a", "b"] := by
    simp [hybrid_rank, bm25Phase, vectorPhase, seedList, expandSeeds,
      normalize_scores, EPSILON, scoreLoop, scoreCandidate, recency_factor,
      clampQ, insertA, lookupA, updateParts, stableSortBy, insortBy, keyLT,
      assignRanksEx, typeOk, tieBm25, tieMemory, tieLoadE, tieLoad, tieGNe,
      HybridSearchConfig.default, ScoreParts.zero, graphRawOf, Except.map,
      Except.bind, bind, Int.zero_tdiv, List.filterMap]
  have h2 : Except.map (fun rs => rs.map (fun r => r.memory.id))
      (hybrid_rank tieBm25 none none tieLoadE tieGNe
        HybridSearchConfig.default none 0 ["a", "b"] [] ["b", "a"]) =
      Except.ok ["b", "a"] := by
    simp [hybrid_rank, bm25Phase, vectorPhase, seedList, expandSeeds,
      normalize_scores, EPSILON, scoreLoop, scoreCandidate, recency_factor,
      clampQ, insertA, lookupA, updateParts, stableSortBy, insortBy, keyLT,
      assignRanksEx, typeOk, tieBm25, tieMemory, tieLoadE, tieLoad, tieGNe,
      HybridSearchConfig.default, ScoreParts.zero, graphRawOf, Except.map,
      Except.bind, bind, Int.zero_tdiv, List.filterMap]
  have h3 : Except.map (fun rs => rs.map (fun r => r.memory.id))
      (hybrid_rank seedBm25 none none seedLoadE seedGNe
        HybridSearchConfig.default none 0 ["x", "y"] []
        ["x", "y", "n1", "n2"]) =
      Except.ok ["x", "y", "n2", "n1"] := by
    simp [hybrid_rank, bm25Phase, vectorPhase, seedList, expandSeeds,
      expandNeighbors, expandStep, relMultMap, normalize_scores, EPSILON,
      scoreLoop, scoreCandidate, recency_factor, clampQ, insertA, lookupA,
      updateParts, stableSortBy, insortBy, keyLT, assignRanksEx, typeOk,
      seedBm25, tieMemory, seedLoadE, seedGNe,
      RelationType.score_multiplier, HybridSearchConfig.default,
      ScoreParts.zero, graphRawOf, Except.map, Except.bind, bind,
      Int.zero_tdiv, List.filterMap]
    norm_num [abs_of_nonneg, lookupA, insortBy, keyLT, assignRanksEx]
    simp
    norm_num [insortBy, keyLT, assignRanksEx]
  have h4 : Except.map (fun rs => rs.map (fun r => r.memory.id))
      (hybrid_rank seedBm25 none none seedLoadE seedGNe
        HybridSearchConfig.default none 0 ["y", "x"] []
        ["x", "y", "n1", "n2"]) =
      Except.ok ["x", "y", "n1", "n2"] := by
    simp [hybrid_rank, bm25Phase, vectorPhase, seedList, expandSeeds,
      expandNeighbors, expandStep, relMultMap, normalize_scores, EPSILON,
      scoreLoop, scoreCandidate, recency_factor, clampQ, insertA, lookupA,
      updateParts, stableSortBy, insortBy, keyLT, assignRanksEx, typeOk,
      seedBm25, tieMemory, seedLoadE, seedGNe,
      RelationType.score_multiplier, HybridSearchConfig.default,
      ScoreParts.zero, graphRawOf, Except.map, Except.bind, bind,
      Int.zero_tdiv, List.filterMap]
    norm_num [abs_of_nonneg, lookupA, insortBy, keyLT, assignRanksEx]
    simp
    norm_num [insortBy, keyLT, assignRanksEx]
  refine ⟨?_, h2, ?_⟩
  · intro he
    rw [he, h2] at h1
    simp at h1
  · intro he
    rw [he, h4] at h3
    simp at h3

/-- **C4 (amended).** Hybrid retrieval is deterministic only up to the
iteration orders of its internal `HashMap`s: seed construction walks
`bm25_map` and then `vector_map`, and the final scoring loop walks the
candidate `parts` map, all in orders the Rust runtime randomizes.  Two runs
over identical store, index, vector state, clock *and* identical iteration
orders for all three maps produce identical result lists; and candidates
with equal fused scores keep the candidate-iteration order in the ranking
(the final sort by score is stable), not ascending id order. -/
theorem C4_deterministic_up_to_iteration_order
    (bm25_results : List MemorySearchResult)
    (vb : Option (List ℚ → Nat → Except MemoryError (List VectorSearchHit)))
    (emb : Option (Except String (List (List ℚ))))
    (load_memory : String → Except MemoryError (Option Memory))
    (get_neighbors :
      String → Nat → Except MemoryError (List Memory × List Association))
    (cfg : HybridSearchConfig) (filter_type : Option MemoryType) (now : Int)
    (b1 v1 p1 b2 v2 p2 : List String)
    (hb : b1 = b2) (hv : v1 = v2) (hp : p1 = p2) :
    hybrid_rank bm25_results vb emb load_memory get_neighbors cfg
        filter_type now b1 v1 p1 =
      hybrid_rank bm25_results vb emb load_memory get_neighbors cfg
        filter_type now b2 v2 p2 ∧
    (∀ (scored : List ExplainedSearchResult) (ra rb : ExplainedSearchResult),
      ra.score = rb.score → Sublist [ra, rb] scored →
      Sublist [ra, rb]
        (stableSortBy (keyLT fun r : ExplainedSearchResult => r.score)
          scored)) := by
  subst hb; subst hv; subst hp
  exact ⟨rfl, fun scored ra rb hs hsub =>
    pair_sublist_key_stableSortBy hs hsub⟩

/-- Witness for C4 (amended): equal iteration orders on the tie scenario. -/
theorem C4_deterministic_up_to_iteration_order_witness :
    (hybrid_rank tieBm25 none none tieLoadE tieGNe
        HybridSearchConfig.default none 0 ["a", "b"] [] ["a", "b"] =
      hybrid_rank tieBm25 none none tieLoadE tieGNe
        HybridSearchConfig.default none 0 ["a", "b"] [] ["a", "b"]) ∧
    (∀ (scored : List ExplainedSearchResult) (ra rb : ExplainedSearchResult),
      ra.score = rb.score → Sublist [ra, rb] scored →
      Sublist [ra, rb]
        (stableSortBy (keyLT fun r : ExplainedSearchResult => r.score)
          scored)) :=
  C4_deterministic_up_to_iteration_order tieBm25 none none tieLoadE tieGNe
    HybridSearchConfig.default none 0 ["a", "b"] [] ["a", "b"]
    ["a", "b"] [] ["a", "b"] rfl rfl rfl

end Goldfish
